import Mathlib

/-!
# GABeat: response parsing, field sanitising, validation, events and scheduling

A shallow embedding of `ga/gahelper.go` (package `ga`) and of `beater/gabeat.go` (package
`beater`) of the GABeat collector, together with theorems about them.

Conventions of the embedding.

* A Go `string` is the list of its characters (`Str`).  Every character class and every
  literal the code matches against is ASCII, so matching on characters agrees with Go's
  matching on UTF-8 encoded text.
* Go's `int` is the 64-bit signed integer; `strconv.Atoi` reports a range error outside it.
* A Go function returning `(GAData, err)` returns `Outcome.ret GAData err`, where `err` is
  `none` for Go's `nil`.  A run-time panic (index or slice bound out of range) is
  `Outcome.panic`.
* A Go `map[string]interface{}` is a list of key/value pairs with pairwise distinct keys;
  assignment `m[k] = v` is `mapPut`.  A `nil` map is `none`.
* Calls that leave the process (`os.Stat`, `os.Setenv`, the two Google Analytics fetches)
  go through an `Env` of oracles and are recorded in a trace of `Call`s.
* The beater runs in a `BeatEnv` (clock, sink, cron parser) and threads a `BeatState`
  holding the events handed to the sink and the lines logged.  A `common.MapStr` is a list
  of key/value pairs as well, with `eventPut` and `eventGet`.
* The life of a `Gabeat` (run, fires of the scheduler, jobs, stop) is a step function
  `Gabeat.step` over `Action`s; goroutines are interleaved one action at a time.
-/

namespace GABeat

/-- A Go string, as the list of its characters. -/
abbrev Str := List Char

/-! ## Standard-library functions used by the code -/

/-- The character class `[[:space:]]` of `whitespaceRegex`: tab, line feed, vertical tab,
form feed, carriage return and space. -/
def isSpace (c : Char) : Bool :=
  c.toNat == 9 || c.toNat == 10 || c.toNat == 11 || c.toNat == 12 || c.toNat == 13
    || c.toNat == 32

/-- The character class `[_0-9A-Za-z]` of `alphanumericPlusUnderscoreRegex`. -/
def isWord (c : Char) : Bool :=
  c.toNat == 95 || (48 ≤ c.toNat && c.toNat ≤ 57) || (65 ≤ c.toNat && c.toNat ≤ 90)
    || (97 ≤ c.toNat && c.toNat ≤ 122)

/-- `Regexp.ReplaceAllString` for a regular expression that is a single character class
`cls`: every match (every character of the class) is replaced by `repl`, the text between
matches is copied. -/
def regexReplaceAllString (cls : Char → Bool) (repl : Str) : Str → Str
  | [] => []
  | c :: cs =>
    if cls c then repl ++ regexReplaceAllString cls repl cs
    else c :: regexReplaceAllString cls repl cs

/-- `Regexp.FindAllString(s, -1)` for a regular expression that is a single character
class `cls`: the successive matches, each a one-character string. -/
def regexFindAllString (cls : Char → Bool) : Str → List Str
  | [] => []
  | c :: cs => if cls c then [c] :: regexFindAllString cls cs else regexFindAllString cls cs

/-- `strings.Join`. -/
def stringsJoin : List Str → Str → Str
  | [], _ => []
  | [a], _ => a
  | a :: b :: rest, sep => a ++ sep ++ stringsJoin (b :: rest) sep

/-- The scan of `strings.Replace(s, old, new, -1)` for a non-empty `old`: `skip` counts the
characters of a matched occurrence of `old` that are still to be passed over.  Occurrences
are found left to right and do not overlap. -/
def replaceScan (old new : Str) : Nat → Str → Str
  | _, [] => []
  | skip + 1, _ :: cs => replaceScan old new skip cs
  | 0, c :: cs =>
    if old.isPrefixOf (c :: cs) then new ++ replaceScan old new (old.length - 1) cs
    else c :: replaceScan old new 0 cs

/-- `strings.Replace(s, old, new, -1)`: all non-overlapping instances of `old` replaced by
`new`.  When `old` is empty it matches before every character and at the end. -/
def stringsReplace (s old new : Str) : Str :=
  if old = new then s
  else if old = [] then new ++ s.flatMap (fun c => c :: new)
  else replaceScan old new 0 s

/-- Number of components `strings.Split(s, sep)` returns for a one-character separator:
one more than the number of separators in `s`. -/
def stringsSplitLen (s : Str) (sep : Char) : Nat :=
  (s.filter (fun c => c == sep)).length + 1

/-- Digit value of an ASCII decimal digit. -/
def digitVal (c : Char) : Option Nat :=
  if 48 ≤ c.toNat ∧ c.toNat ≤ 57 then some (c.toNat - 48) else none

/-- Value of a string of decimal digits read left to right, `acc` being the value of the
digits already read; `none` when a character is not a digit. -/
def parseDigits : Nat → Str → Option Nat
  | acc, [] => some acc
  | acc, c :: cs =>
    match digitVal c with
    | some d => parseDigits (acc * 10 + d) cs
    | none => none

/-- Magnitude bound check of `strconv.Atoi` on a 64-bit platform. -/
def inIntRange (neg : Bool) (n : Nat) : Option Int :=
  if neg then (if n ≤ 2 ^ 63 then some (-(n : Int)) else none)
  else (if n < 2 ^ 63 then some (n : Int) else none)

/-- `strconv.Atoi`: an optional sign followed by at least one decimal digit, the value
within the range of `int`; `none` stands for the returned `*NumError`. -/
def Atoi (s : Str) : Option Int :=
  match s with
  | [] => none
  | c :: cs =>
    if c = '-' then
      (if cs = [] then none else (parseDigits 0 cs).bind (inIntRange true))
    else if c = '+' then
      (if cs = [] then none else (parseDigits 0 cs).bind (inIntRange false))
    else (parseDigits 0 (c :: cs)).bind (inIntRange false)

/-- Go's index expression `l[i]`; `none` is the index-out-of-range panic. -/
def goIndex {α : Type} (l : List α) (i : Int) : Option α :=
  if i < 0 then none else l[i.toNat]?

/-- Go's slice expression `l[0:hi]` on a slice whose capacity is its length; `none` is the
slice-bounds-out-of-range panic. -/
def goSliceTo {α : Type} (l : List α) (hi : Int) : Option (List α) :=
  if hi < 0 ∨ (l.length : Int) < hi then none else some (l.take hi.toNat)

/-- A `map[string]interface{}` whose values are strings: key/value pairs, keys distinct. -/
abbrev GoMap := List (Str × Str)

/-- Map assignment `m[k] = v`: overwrites the entry of `k` when there is one. -/
def mapPut : GoMap → Str → Str → GoMap
  | [], k, v => [(k, v)]
  | (k', v') :: rest, k, v => if k' = k then (k, v) :: rest else (k', v') :: mapPut rest k v

/-- Map lookup `m[k]`. -/
def mapGet : GoMap → Str → Option Str
  | [], _ => none
  | (k', v') :: rest, k => if k' = k then some v' else mapGet rest k

/-- Number of entries, `len(m)`. -/
def mapLen (m : GoMap) : Nat := m.length

/-- Column header of `analytics.RealtimeData` and of `analytics.GaData`. -/
structure ColumnHeader where
  ColumnType : Str
  DataType : Str
  Name : Str
  deriving DecidableEq

/-- The fields of `analytics.RealtimeData` the code reads. -/
structure RealtimeData where
  ColumnHeaders : List ColumnHeader
  Rows : List (List Str)
  deriving DecidableEq

/-- The fields of `analytics.GaData` the code reads. -/
structure GaData where
  ColumnHeaders : List ColumnHeader
  Rows : List (List Str)
  deriving DecidableEq

/-! ## `ga/gahelper.go` -/

/-- `GABeatDataPoint`. -/
structure GABeatDataPoint where
  Value : Int
  DimensionName : Str
  MetricName : Str
  Data : Option GoMap
  deriving DecidableEq

/-- The error values the package builds, one constructor per message. -/
inductive GAError where
  /-- `"Google credentails file must not be empty"` -/
  | credentialsEmpty
  /-- `"Error reading google credentials file: %v"` -/
  | credentialsUnreadable (pathErr : Str)
  /-- `"Config value %s must not be empty"` -/
  | configEmpty (configName : Str)
  /-- `"Could not get Google Analytics data: %v"` -/
  | fetch (gaDataErr : Str)
  /-- `"Error converting string to int: %s, %v"` -/
  | convert (metricValue : Str)
  deriving DecidableEq

/-- What a call of a function with results `(GAData []GABeatDataPoint, err error)` does:
it returns, or it panics at run time. -/
inductive Outcome where
  | ret (GAData : List GABeatDataPoint) (err : Option GAError)
  | panic
  deriving DecidableEq

def errorResult : GABeatDataPoint := ⟨-1, "error".toList, "error".toList, none⟩

def errorResults : List GABeatDataPoint := [errorResult]

def emptyResult : GABeatDataPoint := ⟨0, "empty".toList, "empty".toList, none⟩

def emptyResults : List GABeatDataPoint := [emptyResult]

/-- `format`: the field-name sanitiser. -/
def format (toSanitize : Str) : Str :=
  let noSpaces := regexReplaceAllString isSpace [] toSanitize
  let noColons := stringsReplace noSpaces ['g', 'a', ':'] []
  let noColons := stringsReplace noColons ['r', 't', ':'] []
  let alphaNumUnderscore := regexFindAllString isWord noColons
  stringsJoin alphaNumUnderscore []

/-- `getMetric`: the name of the last column header; `none` is the panic of indexing an
empty header list. -/
def getMetric (gaData : RealtimeData) : Option Str :=
  let lastHeaderIndex : Int := (gaData.ColumnHeaders.length : Int) - 1
  match goIndex gaData.ColumnHeaders lastHeaderIndex with
  | none => none
  | some lastHeader => some lastHeader.Name

/-- The `for _, row := range gaData.Rows` loop of `parseGAResponse`, on the rows still to
be visited and the data points appended so far. -/
def parseGAResponseLoop (metricNameHeader : Str) :
    List (List Str) → List GABeatDataPoint → Outcome
  | [], gaDataPoints => .ret gaDataPoints none
  | row :: rows, gaDataPoints =>
    match goSliceTo row ((row.length : Int) - 1) with
    | none => .panic
    | some dimensionNames =>
      let dimensionName := stringsJoin dimensionNames ['_']
      match goIndex row ((row.length : Int) - 1) with
      | none => .panic
      | some metricValue =>
        match Atoi metricValue with
        | none => .ret errorResults (some (.convert metricValue))
        | some dataPoint =>
          parseGAResponseLoop metricNameHeader rows
            (gaDataPoints ++ [⟨dataPoint, format dimensionName, format metricNameHeader, none⟩])

/-- `parseGAResponse`: the realtime parser.  The call of `debugGAResponse`, which only
logs, is left out. -/
def parseGAResponse (gaData : RealtimeData) : Outcome :=
  match gaData.Rows with
  | [] => .ret emptyResults none
  | row0 :: _ =>
    if row0.length < 1 then .ret emptyResults none
    else
      match getMetric gaData with
      | none => .panic
      | some metricNameHeader => parseGAResponseLoop metricNameHeader gaData.Rows []

/-- The `for i, columnHeader := range gaData.ColumnHeaders` loop of
`parseGAResponseForCharge` for one row: `i` is the index of the next header, `data` the map
filled so far; `none` is the panic of `row[i]` out of range. -/
def fillData (row : List Str) : Nat → List ColumnHeader → GoMap → Option GoMap
  | _, [], data => some data
  | i, columnHeader :: rest, data =>
    match goIndex row (i : Int) with
    | none => none
    | some cell => fillData row (i + 1) rest (mapPut data (format columnHeader.Name) cell)

/-- The `for _, row := range gaData.Rows` loop of `parseGAResponseForCharge`. -/
def parseGAResponseForChargeLoop (columnHeaders : List ColumnHeader) :
    List (List Str) → List GABeatDataPoint → Outcome
  | [], gaDataPoints => .ret gaDataPoints none
  | row :: rows, gaDataPoints =>
    match fillData row 0 columnHeaders [] with
    | none => .panic
    | some data =>
      parseGAResponseForChargeLoop columnHeaders rows
        (gaDataPoints ++ [⟨0, [], [], some data⟩])

/-- `parseGAResponseForCharge`: the ranged parser (`dimensionCount` and `metricCount` are
not used by the body).  The call of `debugGAResponseForCharge`, which only logs, is left
out. -/
def parseGAResponseForCharge (gaData : GaData) (_dimensionCount _metricCount : Nat) :
    Outcome :=
  match gaData.Rows with
  | [] => .ret emptyResults none
  | row0 :: _ =>
    if row0.length < 1 then .ret emptyResults none
    else parseGAResponseForChargeLoop gaData.ColumnHeaders gaData.Rows []

/-- Modelled from the spec: the type `config.GoogleAnalyticsConfig` is declared in the
`config` package, which is not among the sources at hand; these are the fields the code
reads (the spec's SourceConfig: credential reference, identifier set, metric list,
dimension list, source mode, time range, schedule, document type, tag list). -/
structure GoogleAnalyticsConfig where
  GoogleCredentialsFilePath : Str
  GoogleAnalyticsIDs : Str
  GoogleAnalyticsMetrics : Str
  GoogleAnalyticsDimensions : Str
  GoogleAnalyticsType : Str
  GoogleAnalyticsStarttime : Str
  GoogleAnalyticsEndtime : Str
  Schedule : Str
  DocumentType : Str
  Tags : List Str
  deriving DecidableEq

/-- A call that leaves the process, as recorded in the trace of a run. -/
inductive Call where
  | osStat (path : Str)
  | osSetenv (key value : Str)
  | gaDataRetrieverFunc (gaIds gaMetrics gaDimensions : Str)
  | getGADataForCharge (gaIds gaMetrics gaDimensions gaStarttime gaEndtime : Str)
  deriving DecidableEq

/-- Whether a call is one of the two fetches. -/
def Call.isFetch : Call → Bool
  | .gaDataRetrieverFunc _ _ _ => true
  | .getGADataForCharge _ _ _ _ _ => true
  | _ => false

/-- The world outside the process.  `osStat path` is `none` when `os.Stat` succeeds and
the error otherwise.  `getGADataForCharge` is the ranged fetch: its body only builds the
Google client, resolves a relative start time against the clock and performs the request,
so it is taken whole as an oracle of its five arguments. -/
structure Env where
  osStat : Str → Option Str
  getGADataForCharge : Str → Str → Str → Str → Str → Except Str GaData

/-- The type `gaDataRetriever`: the realtime fetch handed to `getGAReportData`. -/
abbrev gaDataRetriever := Str → Str → Str → Except Str RealtimeData

/-- `initCredentialsPath`, with the trace of its calls. -/
def initCredentialsPath (env : Env) (gaConfig : GoogleAnalyticsConfig) :
    List Call × List GABeatDataPoint × Option GAError :=
  if gaConfig.GoogleCredentialsFilePath = [] then
    ([], errorResults, some .credentialsEmpty)
  else
    match env.osStat gaConfig.GoogleCredentialsFilePath with
    | some pathErr =>
      ([.osStat gaConfig.GoogleCredentialsFilePath], errorResults,
        some (.credentialsUnreadable pathErr))
    | none =>
      ([.osStat gaConfig.GoogleCredentialsFilePath,
        .osSetenv "GOOGLE_APPLICATION_CREDENTIALS".toList gaConfig.GoogleCredentialsFilePath],
        emptyResults, none)

/-- `validateConfig`. -/
def validateConfig (configValue configName : Str) : List GABeatDataPoint × Option GAError :=
  if configValue = [] then (errorResults, some (.configEmpty configName))
  else (emptyResults, none)

/-- `getGAReportData`, with the trace of the calls it made. -/
def getGAReportData (env : Env) (gaConfig : GoogleAnalyticsConfig)
    (gaDataRetrieverFunc : gaDataRetriever) : List Call × Outcome :=
  match initCredentialsPath env gaConfig with
  | (t, _, some pathErr) => (t, .ret errorResults (some pathErr))
  | (t, _, none) =>
    match validateConfig gaConfig.GoogleAnalyticsIDs "google analytics IDs".toList with
    | (_, some idsErr) => (t, .ret errorResults (some idsErr))
    | (_, none) =>
      match validateConfig gaConfig.GoogleAnalyticsMetrics
          "google analytics metrics".toList with
      | (_, some metricErr) => (t, .ret errorResults (some metricErr))
      | (_, none) =>
        match validateConfig gaConfig.GoogleAnalyticsDimensions
            "google analytics demensions".toList with
        | (_, some dimensionErr) => (t, .ret errorResults (some dimensionErr))
        | (_, none) =>
          if gaConfig.GoogleAnalyticsType = "gaservice".toList then
            let call := Call.getGADataForCharge gaConfig.GoogleAnalyticsIDs
              gaConfig.GoogleAnalyticsMetrics gaConfig.GoogleAnalyticsDimensions
              gaConfig.GoogleAnalyticsStarttime gaConfig.GoogleAnalyticsEndtime
            match env.getGADataForCharge gaConfig.GoogleAnalyticsIDs
                gaConfig.GoogleAnalyticsMetrics gaConfig.GoogleAnalyticsDimensions
                gaConfig.GoogleAnalyticsStarttime gaConfig.GoogleAnalyticsEndtime with
            | .error gaDataErr => (t ++ [call], .ret errorResults (some (.fetch gaDataErr)))
            | .ok gaData =>
              let diLen := stringsSplitLen gaConfig.GoogleAnalyticsDimensions ','
              let meLen := stringsSplitLen gaConfig.GoogleAnalyticsMetrics ','
              (t ++ [call], parseGAResponseForCharge gaData diLen meLen)
          else
            let call := Call.gaDataRetrieverFunc gaConfig.GoogleAnalyticsIDs
              gaConfig.GoogleAnalyticsMetrics gaConfig.GoogleAnalyticsDimensions
            match gaDataRetrieverFunc gaConfig.GoogleAnalyticsIDs
                gaConfig.GoogleAnalyticsMetrics gaConfig.GoogleAnalyticsDimensions with
            | .error gaDataErr => (t ++ [call], .ret errorResults (some (.fetch gaDataErr)))
            | .ok gaData => (t ++ [call], parseGAResponse gaData)

/-! ## Library functions used by `beater/gabeat.go` -/

/-- A calendar date, standing for the `time.Time` at midnight UTC of that day. -/
structure Date where
  year : Nat
  month : Nat
  day : Nat
  deriving DecidableEq

/-- Leap years of the Gregorian calendar, as in package `time`. -/
def isLeap (year : Nat) : Bool :=
  year % 4 == 0 && (year % 100 != 0 || year % 400 == 0)

/-- Number of days of a month, `daysIn` of package `time`. -/
def daysIn (month year : Nat) : Nat :=
  if month = 2 then (if isLeap year then 29 else 28)
  else if month = 4 ∨ month = 6 ∨ month = 9 ∨ month = 11 then 30
  else 31

/-- `time.Parse("20060102", value)`: four digits of year, two of month, two of day and
nothing else, the month in 1..12 and the day within the month; `none` is the returned
error. -/
def timeParse (value : Str) : Option Date :=
  match value with
  | [y1, y2, y3, y4, m1, m2, d1, d2] =>
    match parseDigits 0 [y1, y2, y3, y4], parseDigits 0 [m1, m2], parseDigits 0 [d1, d2] with
    | some year, some month, some day =>
      if month ≤ 0 ∨ 12 < month then none
      else if day < 1 ∨ daysIn month year < day then none
      else some ⟨year, month, day⟩
    | _, _, _ => none
  | _ => none

/-- A value stored in a `common.MapStr` by the code. -/
inductive FieldValue where
  /-- `common.Time(time.Now())`, the instant read from the clock -/
  | commonTime (instant : Nat)
  /-- a `time.Time` returned by `time.Parse` -/
  | time (t : Date)
  | str (s : Str)
  /-- a tag list, `gaConfig.Tags` -/
  | strs (l : List Str)
  | int (n : Int)
  deriving DecidableEq

/-- A `common.MapStr`: key/value pairs, keys distinct. -/
abbrev MapStr := List (Str × FieldValue)

/-- `MapStr.Put(key, value)` (and the assignment `m[key] = value`): the entry of `key` is
overwritten when there is one.  Keys are taken whole: the dot notation of `Put`, by which
a key `x.y` addresses a nested map, is not modelled; the keys the parsers produce hold no
dot. -/
def eventPut : MapStr → Str → FieldValue → MapStr
  | [], k, v => [(k, v)]
  | (k', v') :: rest, k, v =>
    if k' = k then (k, v) :: rest else (k', v') :: eventPut rest k v

/-- Lookup `m[key]` in a `MapStr`. -/
def eventGet : MapStr → Str → Option FieldValue
  | [], _ => none
  | (k', v') :: rest, k => if k' = k then some v' else eventGet rest k

/-! ## `beater/gabeat.go` -/

/-- A line written with `logp.Err`. -/
inductive LogLine where
  /-- `"Publisher couldn't publish event to Elastic"` -/
  | publishFailed
  /-- `"gadata was null, not publishing: %v"` -/
  | gadataNull (err : GAError)
  deriving DecidableEq

/-- The world of the beater.  `now n` is the instant returned by the call number `n` of
`time.Now`; `publishEvent handed event` is the answer of `client.PublishEvent(event)` when
the events `handed` were handed to the client before, so that any pattern of accepted and
rejected events is a `publishEvent`; `cronParses spec` tells whether the cron library
accepts the schedule expression `spec` (`AddFunc` returns an error otherwise). -/
structure BeatEnv where
  now : Nat → Nat
  publishEvent : List MapStr → MapStr → Bool
  cronParses : Str → Bool

/-- What a run of the beater has done so far: the events handed to
`client.PublishEvent`, oldest first, the lines logged with `logp.Err`, and the number of
calls of `time.Now`. -/
structure BeatState where
  handed : List MapStr
  errLog : List LogLine
  clock : Nat
  deriving DecidableEq

/-- The `for key, value := range GAData.Data` loop of `makeEventForCharge`, on the entries
still to be visited.  Go leaves the order of the visit open; the entries are visited in
the order of the list, and what is proved of the loop is proved for every list. -/
def makeEventForChargeLoop : List (Str × Str) → MapStr → MapStr
  | [], event => event
  | (key, value) :: rest, event =>
    if key = "date".toList then
      match timeParse value with
      | some logxTimestamp =>
        makeEventForChargeLoop rest
          (eventPut event "logx-timestamp".toList (.time logxTimestamp))
      | none =>
        makeEventForChargeLoop rest (eventPut event "logx-timestamp".toList (.str value))
    else makeEventForChargeLoop rest (eventPut event key (.str value))

/-- `makeEventForCharge`; `now` is the instant `time.Now()` returns.  A `nil` map is
ranged over as an empty one. -/
def makeEventForCharge (gaConfig : GoogleAnalyticsConfig) (now : Nat)
    (GAData : GABeatDataPoint) : MapStr :=
  let event : MapStr :=
    [("@timestamp".toList, .commonTime now),
      ("type".toList, .str gaConfig.DocumentType),
      ("tags".toList, .strs gaConfig.Tags)]
  makeEventForChargeLoop (GAData.Data.getD []) event

/-- The `for _, gaDataPoint := range GAData` loop of `makeEvent`. -/
def makeEventLoop : List GABeatDataPoint → MapStr → MapStr
  | [], event => event
  | gaDataPoint :: rest, event =>
    let gaDataName := gaDataPoint.DimensionName ++ ['_'] ++ gaDataPoint.MetricName
    makeEventLoop rest (eventPut event gaDataName (.int gaDataPoint.Value))

/-- `makeEvent`, the event builder of the path `publishToElastic`, which `beatOnce` no
longer calls. -/
def makeEvent (beatType : Str) (now : Nat) (GAData : List GABeatDataPoint) : MapStr :=
  let event : MapStr :=
    [("@timestamp".toList, .commonTime now),
      ("type".toList, .str beatType),
      ("count".toList, .int 1)]
  makeEventLoop GAData event

/-- `publishToElasticForCharge`: one event per data point, handed to the client whatever
the answers to the earlier ones were. -/
def publishToElasticForCharge (env : BeatEnv) (gaConfig : GoogleAnalyticsConfig) :
    List GABeatDataPoint → BeatState → BeatState
  | [], st => st
  | data :: rest, st =>
    let event := makeEventForCharge gaConfig (env.now st.clock) data
    let succeeded := env.publishEvent st.handed event
    publishToElasticForCharge env gaConfig rest
      { handed := st.handed ++ [event]
        errLog := if succeeded then st.errLog else st.errLog ++ [.publishFailed]
        clock := st.clock + 1 }

/-- The type `gaDataRetriever` of package `beater`: the collection function handed to
`beatOnce`; in `Run` it is `ga.GetGAReportData`. -/
abbrev beatDataRetriever := GoogleAnalyticsConfig → Outcome

/-- `beatOnce`; `none` is a panic of `dataFunc`, which `beatOnce` does not recover. -/
def beatOnce (env : BeatEnv) (gaConfig : GoogleAnalyticsConfig)
    (dataFunc : beatDataRetriever) (st : BeatState) : Option BeatState :=
  match dataFunc gaConfig with
  | .panic => none
  | .ret GAData none => some (publishToElasticForCharge env gaConfig GAData st)
  | .ret _ (some err) => some { st with errLog := st.errLog ++ [.gadataNull err] }

/-- An entry of the cron scheduler: the schedule expression it was registered with and the
configuration held by the registered function
`func() { beatOnce(bt.client, b.Name, gaConfig, dataFunc) }`. -/
structure CronEntry where
  spec : Str
  gaConfig : GoogleAnalyticsConfig
  deriving DecidableEq

/-- `cron.AddFunc(spec, cmd)`: the entry is added when the schedule expression parses;
otherwise an error is returned and nothing is added. -/
def cronAddFunc (env : BeatEnv) (entries : List CronEntry) (spec : Str)
    (cmd : GoogleAnalyticsConfig) : List CronEntry × Bool :=
  if env.cronParses spec then (entries ++ [⟨spec, cmd⟩], true) else (entries, false)

/-- The `for idx, _ := range bt.config.Googleanalytics` loop of `runFunctionally`: the
result of `AddFunc` is dropped. -/
def runFunctionallyRegister (env : BeatEnv) :
    List GoogleAnalyticsConfig → List CronEntry → List CronEntry
  | [], entries => entries
  | gaConfig :: rest, entries =>
    runFunctionallyRegister env rest (cronAddFunc env entries gaConfig.Schedule gaConfig).1

/-- What the scheduler does when the entry number `i` fires: it calls the registered
function, that is `beatOnce` with the configuration the entry holds. -/
def cronFire (env : BeatEnv) (entries : List CronEntry) (dataFunc : beatDataRetriever)
    (i : Nat) (st : BeatState) : Option BeatState :=
  match entries[i]? with
  | none => some st
  | some entry => beatOnce env entry.gaConfig dataFunc st

/-- The `Gabeat` value together with the cron scheduler `runFunctionally` creates and the
collection jobs under way.  `cronRunning` holds from `cron.Start()` until `cron.Stop()`;
`jobsAfterStop` counts the calls of `beatOnce` begun after `close(bt.done)`, and
`closedInFlight` the jobs that were under way when `bt.client.Close()` was called. -/
structure Gabeat where
  config : List GoogleAnalyticsConfig
  doneClosed : Bool
  clientConnected : Bool
  clientClosed : Bool
  entries : List CronEntry
  cronRunning : Bool
  runReturned : Bool
  inFlight : List GoogleAnalyticsConfig
  jobsAfterStop : Nat
  closedInFlight : Nat
  panicked : Bool
  deriving DecidableEq

/-- The value `New` returns. -/
def Gabeat.new (config : List GoogleAnalyticsConfig) : Gabeat :=
  ⟨config, false, false, false, [], false, false, [], 0, 0, false⟩

/-- What can happen to a `Gabeat`: `Run` is called and reaches its wait on `bt.done`; the
scheduler fires an entry; a job under way finishes; `Stop` is called; the wait of
`runFunctionally` sees `bt.done` closed and `Run` returns. -/
inductive Action where
  | run
  | fire (i : Nat)
  | finish (i : Nat)
  | stop
  | runReturns
  deriving DecidableEq

/-- One step of a `Gabeat`.  `run` is `runFunctionally` up to its `select`: connect the
client, register the entries, start the scheduler.  `fire i` happens only while the
scheduler runs and starts `beatOnce` for the entry.  `stop` is `Stop`: `bt.client.Close()`
and then `close(bt.done)`, which panics on a channel already closed; the scheduler is not
touched, `cron.Stop()` being called nowhere. -/
def Gabeat.step (env : BeatEnv) (bt : Gabeat) : Action → Gabeat
  | .run =>
    { bt with
      clientConnected := true
      entries := runFunctionallyRegister env bt.config []
      cronRunning := true }
  | .fire i =>
    if bt.cronRunning then
      match bt.entries[i]? with
      | none => bt
      | some entry =>
        { bt with
          inFlight := bt.inFlight ++ [entry.gaConfig]
          jobsAfterStop := if bt.doneClosed then bt.jobsAfterStop + 1 else bt.jobsAfterStop }
    else bt
  | .finish i => { bt with inFlight := bt.inFlight.eraseIdx i }
  | .stop =>
    if bt.doneClosed then
      { bt with clientClosed := true, panicked := true }
    else
      { bt with
        clientClosed := true
        closedInFlight := bt.closedInFlight + bt.inFlight.length
        doneClosed := true }
  | .runReturns => if bt.doneClosed then { bt with runReturned := true } else bt

/-- The state after a sequence of actions. -/
def Gabeat.steps (env : BeatEnv) (bt : Gabeat) (actions : List Action) : Gabeat :=
  actions.foldl (Gabeat.step env) bt

/-! ## Reference definitions, written from the specification -/

/-- Removal of the prefix `p` from `s` when `s` starts with it. -/
def trimLeading (p s : Str) : Str :=
  if p.isPrefixOf s then s.drop p.length else s

/-- The sanitiser as the specification words it: strip all whitespace, remove a leading
`ga:` and a leading `rt:`, keep the characters of `[0-9A-Za-z_]`. -/
def formatLeadingReference (s : Str) : Str :=
  (trimLeading ['r', 't', ':'] (trimLeading ['g', 'a', ':']
    (s.filter (fun c => !isSpace c)))).filter isWord

/-- Removal of every occurrence of the three-character text `a b c`, reading left to
right; an occurrence that only appears once another has been removed is kept. -/
def dropEvery (a b c : Char) : Str → Str
  | x :: y :: z :: rest =>
    if x = a ∧ y = b ∧ z = c then dropEvery a b c rest
    else x :: dropEvery a b c (y :: z :: rest)
  | short => short

/-- The sanitiser with the two markers removed wherever they occur: strip all whitespace,
remove every `ga:`, then every `rt:`, keep the characters of `[0-9A-Za-z_]`. -/
def formatReference (s : Str) : Str :=
  (dropEvery 'r' 't' ':' (dropEvery 'g' 'a' ':'
    (s.filter (fun c => !isSpace c)))).filter isWord

/-- The metric value of a realtime row: its last cell read by `strconv.Atoi`; `none` when
the row has no cell or the last cell is not an integer. -/
def rowValue (row : List Str) : Option Int :=
  row.getLast?.bind Atoi

/-- The realtime record of a row under the metric header `metricNameHeader`: the integer
of the last cell, the sanitised join of the other cells, the sanitised header name. -/
def realtimePoint (metricNameHeader : Str) (row : List Str) : GABeatDataPoint :=
  ⟨(rowValue row).getD 0, format (stringsJoin row.dropLast ['_']),
    format metricNameHeader, none⟩

/-- Whether an outcome is a return with a non-nil error. -/
def Outcome.isError : Outcome → Bool
  | .ret _ (some _) => true
  | _ => false

/-- The credential check of the validation order: the path is present and readable. -/
def credentialCheck (env : Env) (gaConfig : GoogleAnalyticsConfig) : Option GAError :=
  if gaConfig.GoogleCredentialsFilePath = [] then some .credentialsEmpty
  else (env.osStat gaConfig.GoogleCredentialsFilePath).map .credentialsUnreadable

/-- A non-emptiness check of the validation order, on the field called `configName`. -/
def nonEmptyCheck (configValue configName : Str) : Option GAError :=
  if configValue = [] then some (.configEmpty configName) else none

/-- The validation order of the specification: credential path, identifiers, metrics,
dimensions; the result is the error of the first check that fails. -/
def firstFailure (env : Env) (gaConfig : GoogleAnalyticsConfig) : Option GAError :=
  [credentialCheck env gaConfig,
    nonEmptyCheck gaConfig.GoogleAnalyticsIDs "google analytics IDs".toList,
    nonEmptyCheck gaConfig.GoogleAnalyticsMetrics "google analytics metrics".toList,
    nonEmptyCheck gaConfig.GoogleAnalyticsDimensions "google analytics demensions".toList
  ].findSome? id

/-- The fetch a validated configuration leads to: the ranged fetch for the type
`gaservice`, the realtime fetch otherwise. -/
def fetchCall (gaConfig : GoogleAnalyticsConfig) : Call :=
  if gaConfig.GoogleAnalyticsType = "gaservice".toList then
    .getGADataForCharge gaConfig.GoogleAnalyticsIDs gaConfig.GoogleAnalyticsMetrics
      gaConfig.GoogleAnalyticsDimensions gaConfig.GoogleAnalyticsStarttime
      gaConfig.GoogleAnalyticsEndtime
  else
    .gaDataRetrieverFunc gaConfig.GoogleAnalyticsIDs gaConfig.GoogleAnalyticsMetrics
      gaConfig.GoogleAnalyticsDimensions

/-- The field of the event that `makeEventForCharge` writes for an entry with key `key`:
`logx-timestamp` for the key `date`, the key itself otherwise. -/
def targetKey (key : Str) : Str :=
  if key = "date".toList then "logx-timestamp".toList else key

/-- The value `makeEventForCharge` writes for the entry `key`, `value`: for the key `date`
the parsed date, or the raw string when it does not parse; the raw string otherwise. -/
def targetValue (key value : Str) : FieldValue :=
  if key = "date".toList then
    match timeParse value with
    | some t => .time t
    | none => .str value
  else .str value

/-- The ranged shape of a record: it holds a map, whose keys are pairwise distinct and
sanitised, that is made of characters of `[0-9A-Za-z_]` only. -/
def RangedShape (GAData : GABeatDataPoint) : Prop :=
  ∃ m, GAData.Data = some m ∧ (m.map (fun p => p.1)).Nodup ∧
    ∀ p ∈ m, ∀ c ∈ p.1, isWord c = true

/-- The events of the records `GAData`, in their order, the first built at the clock
reading number `n`. -/
def eventsFor (env : BeatEnv) (gaConfig : GoogleAnalyticsConfig) :
    Nat → List GABeatDataPoint → List MapStr
  | _, [] => []
  | n, data :: rest =>
    makeEventForCharge gaConfig (env.now n) data :: eventsFor env gaConfig (n + 1) rest

/-- The realtime response of the specification's example: headers `rt:country`,
`rt:activeUsers`, rows `US, 10` and `FR, 3`. -/
def exampleRealtime : RealtimeData :=
  ⟨[⟨[], [], "rt:country".toList⟩, ⟨[], [], "rt:activeUsers".toList⟩],
    [["US".toList, "10".toList], ["FR".toList, "3".toList]]⟩

/-- A configuration of the ranged kind with document type `ga` and the tag `web`, fired
every hour. -/
def exampleConfig : GoogleAnalyticsConfig :=
  ⟨"creds.json".toList, "ga:1".toList, "ga:pageviews".toList, "ga:date".toList,
    "gaservice".toList, "7daysAgo".toList, "today".toList, "@hourly".toList, "ga".toList,
    ["web".toList]⟩

/-- The ranged record of the specification's example: `date ↦ 20230115`,
`pageviews ↦ 42`. -/
def exampleRanged : GABeatDataPoint :=
  ⟨0, [], [], some [("date".toList, "20230115".toList), ("pageviews".toList, "42".toList)]⟩

/-- A world in which the clock reading number `n` is `n`, the sink accepts every event and
the cron library rejects exactly the empty schedule expression. -/
def exampleBeatEnv : BeatEnv :=
  ⟨fun n => n, fun _ _ => true, fun spec => !spec.isEmpty⟩

/-! ## Lemmas on the library functions -/

theorem regexReplaceAllString_nil (cls : Char → Bool) (s : Str) :
    regexReplaceAllString cls [] s = s.filter (fun c => !cls c) := by
  induction s with
  | nil => rfl
  | cons c cs ih =>
    by_cases h : cls c = true <;> simp [regexReplaceAllString, List.filter_cons, h, ih]

theorem stringsJoin_regexFindAllString (cls : Char → Bool) (s : Str) :
    stringsJoin (regexFindAllString cls s) [] = s.filter cls := by
  induction s with
  | nil => rfl
  | cons c cs ih =>
    by_cases h : cls c = true
    · simp only [regexFindAllString, h, if_true, List.filter_cons]
      rw [← ih]
      cases hm : regexFindAllString cls cs with
      | nil => simp [stringsJoin]
      | cons m ms => simp [stringsJoin]
    · simp [regexFindAllString, List.filter_cons, h, ih]

theorem replaceScan_sublist (old : Str) (s : Str) :
    ∀ k, (replaceScan old [] k s).Sublist s := by
  induction s with
  | nil => intro k; simp [replaceScan]
  | cons c cs ih =>
    intro k
    cases k with
    | zero =>
      simp only [replaceScan]
      split
      · simpa using (ih (old.length - 1)).cons c
      · exact (ih 0).cons₂ c
    | succ k => simpa [replaceScan] using (ih k).cons c

theorem stringsReplace_sublist (s old : Str) (h : old ≠ []) :
    (stringsReplace s old []).Sublist s := by
  unfold stringsReplace
  simp only [h, if_false]
  exact replaceScan_sublist old s 0

theorem replaceScan_skip (old new : Str) (s : Str) :
    ∀ k, replaceScan old new k s = replaceScan old new 0 (s.drop k) := by
  induction s with
  | nil => intro k; simp [replaceScan]
  | cons c cs ih =>
    intro k
    cases k with
    | zero => simp
    | succ k => simpa [replaceScan] using ih k

theorem replaceScan_eq_dropEvery (a b c : Char) (s : Str) :
    replaceScan [a, b, c] [] 0 s = dropEvery a b c s := by
  induction s using dropEvery.induct a b c with
  | case1 x y z rest h ih =>
    rw [dropEvery, if_pos h, ← ih]
    obtain ⟨rfl, rfl, rfl⟩ := h
    rw [replaceScan, replaceScan_skip]
    simp
  | case2 x y z rest h ih =>
    rw [dropEvery, if_neg h, ← ih, replaceScan]
    have : List.isPrefixOf [a, b, c] (x :: y :: z :: rest) = false := by
      simp only [List.isPrefixOf, Bool.and_true]
      by_contra hc
      simp at hc
      exact h ⟨hc.1.symm, hc.2.1.symm, hc.2.2.symm⟩
    simp [this]
  | case3 short hshort =>
    rw [dropEvery]
    · match short, hshort with
      | [], _ => simp [replaceScan]
      | [x], _ => simp [replaceScan, List.isPrefixOf]
      | [x, y], _ => simp [replaceScan, List.isPrefixOf]
      | x :: y :: z :: rest, hs => exact absurd rfl (hs x y z rest)
    · exact hshort

theorem format_eq_filter (s : Str) :
    format s = (replaceScan ['r', 't', ':'] [] 0 (replaceScan ['g', 'a', ':'] [] 0
      (s.filter (fun c => !isSpace c)))).filter isWord := by
  simp [format, stringsReplace, stringsJoin_regexFindAllString, regexReplaceAllString_nil]

theorem replaceScan_of_not_mem (old new : Str) (x : Char) (hx : x ∈ old) (t : Str)
    (ht : x ∉ t) : replaceScan old new 0 t = t := by
  induction t with
  | nil => simp [replaceScan]
  | cons c cs ih =>
    have hp : List.isPrefixOf old (c :: cs) = false := by
      by_contra hc
      have hpre : old <+: c :: cs := List.isPrefixOf_iff_prefix.mp (by simpa using hc)
      exact ht (hpre.subset hx)
    have hcs : x ∉ cs := fun h => ht (List.mem_cons_of_mem c h)
    simp [replaceScan, hp, ih hcs]

theorem isWord_not_isSpace (c : Char) (h : isWord c = true) : isSpace c = false := by
  simp only [isWord, isSpace, Bool.or_eq_true, Bool.and_eq_true, beq_iff_eq,
    decide_eq_true_eq, Bool.or_eq_false_iff, beq_eq_false_iff_ne, ne_eq] at *
  omega

theorem isWord_ne_colon (c : Char) (h : isWord c = true) : c ≠ ':' := by
  rintro rfl
  revert h
  decide

theorem format_isWord (s : Str) : ∀ c ∈ format s, isWord c = true := by
  intro c hc
  rw [format_eq_filter] at hc
  exact (List.mem_filter.mp hc).2

theorem format_of_isWord (t : Str) (ht : ∀ c ∈ t, isWord c = true) : format t = t := by
  have hcolon : ':' ∉ t := fun h => isWord_ne_colon ':' (ht _ h) rfl
  have hspace : t.filter (fun c => !isSpace c) = t := by
    apply List.filter_eq_self.mpr
    intro c hc
    simp [isWord_not_isSpace c (ht c hc)]
  rw [format_eq_filter, hspace,
    replaceScan_of_not_mem ['g', 'a', ':'] [] ':' (by simp) t hcolon,
    replaceScan_of_not_mem ['r', 't', ':'] [] ':' (by simp) t hcolon]
  exact List.filter_eq_self.mpr ht

/-! ## Lemmas on the realtime parser -/

theorem goIndex_natCast {α : Type} (l : List α) (i : Nat) : goIndex l (i : Int) = l[i]? := by
  simp [goIndex]

theorem goIndex_last {α : Type} (l : List α) (h : l ≠ []) :
    goIndex l ((l.length : Int) - 1) = l.getLast? := by
  have hpos : 0 < l.length := List.length_pos.mpr h
  have hcast : ((l.length : Int) - 1) = ((l.length - 1 : Nat) : Int) := by omega
  rw [hcast, goIndex_natCast, List.getLast?_eq_getElem?]

theorem goSliceTo_last {α : Type} (l : List α) (h : l ≠ []) :
    goSliceTo l ((l.length : Int) - 1) = some l.dropLast := by
  have hpos : 0 < l.length := List.length_pos.mpr h
  have hcast : ((l.length : Int) - 1) = ((l.length - 1 : Nat) : Int) := by omega
  have hno : ¬ (((l.length - 1 : Nat) : Int) < 0 ∨ (l.length : Int) < ((l.length - 1 : Nat) : Int)) := by
    omega
  rw [hcast, goSliceTo, if_neg hno, List.dropLast_eq_take]
  simp

theorem getMetric_of_ne_nil (gaData : RealtimeData) (h : gaData.ColumnHeaders ≠ []) :
    ∃ lastHeader, gaData.ColumnHeaders.getLast? = some lastHeader ∧
      getMetric gaData = some lastHeader.Name := by
  obtain ⟨lastHeader, hl⟩ : ∃ x, gaData.ColumnHeaders.getLast? = some x := by
    cases hg : gaData.ColumnHeaders.getLast? with
    | none => exact absurd (List.getLast?_eq_none_iff.mp hg) h
    | some x => exact ⟨x, rfl⟩
  refine ⟨lastHeader, hl, ?_⟩
  simp [getMetric, goIndex_last _ h, hl]

/-- One step of the realtime loop on a non-empty row. -/
theorem parseGAResponseLoop_cons (metric : Str) (row : List Str) (rows : List (List Str))
    (acc : List GABeatDataPoint) (h : row ≠ []) :
    parseGAResponseLoop metric (row :: rows) acc =
      match rowValue row with
      | none => .ret errorResults (some (.convert (row.getLast h)))
      | some _ => parseGAResponseLoop metric rows (acc ++ [realtimePoint metric row]) := by
  have hlast : row.getLast? = some (row.getLast h) := List.getLast?_eq_getLast _ h
  rw [parseGAResponseLoop, goSliceTo_last row h, goIndex_last row h]
  simp only [hlast, rowValue, realtimePoint, Option.some_bind]
  cases hA : Atoi (row.getLast h) <;> simp

theorem parseGAResponseLoop_ok (metric : Str) (rows : List (List Str)) :
    ∀ acc : List GABeatDataPoint, (∀ row ∈ rows, row ≠ []) →
      (∀ row ∈ rows, (rowValue row).isSome = true) →
      parseGAResponseLoop metric rows acc = .ret (acc ++ rows.map (realtimePoint metric)) none := by
  induction rows with
  | nil => intro acc _ _; simp [parseGAResponseLoop]
  | cons row rows ih =>
    intro acc hne hint
    have h1 : row ≠ [] := hne row (List.mem_cons_self _ _)
    obtain ⟨v, hv⟩ := Option.isSome_iff_exists.mp (hint row (List.mem_cons_self _ _))
    rw [parseGAResponseLoop_cons metric row rows acc h1, hv]
    simp only
    rw [ih _ (fun r hr => hne r (List.mem_cons_of_mem _ hr))
      (fun r hr => hint r (List.mem_cons_of_mem _ hr))]
    simp

theorem parseGAResponseLoop_bad (metric : Str) (rows : List (List Str)) :
    ∀ acc : List GABeatDataPoint, (∀ row ∈ rows, row ≠ []) →
      (∃ row ∈ rows, rowValue row = none) →
      ∃ row ∈ rows, ∃ cell, row.getLast? = some cell ∧ Atoi cell = none ∧
        parseGAResponseLoop metric rows acc = .ret errorResults (some (.convert cell)) := by
  induction rows with
  | nil => intro acc _ h; obtain ⟨row, hr, _⟩ := h; cases hr
  | cons row rows ih =>
    intro acc hne hbad
    have h1 : row ≠ [] := hne row (List.mem_cons_self _ _)
    have hlast : row.getLast? = some (row.getLast h1) := List.getLast?_eq_getLast _ h1
    rw [parseGAResponseLoop_cons metric row rows acc h1]
    cases hv : rowValue row with
    | none =>
      refine ⟨row, List.mem_cons_self _ _, row.getLast h1, hlast, ?_, rfl⟩
      simpa [rowValue, hlast] using hv
    | some v =>
      have hbad' : ∃ r ∈ rows, rowValue r = none := by
        obtain ⟨r, hr, hrv⟩ := hbad
        rcases List.mem_cons.mp hr with rfl | hr'
        · rw [hv] at hrv; cases hrv
        · exact ⟨r, hr', hrv⟩
      obtain ⟨r, hr, cell, hc, ha, hres⟩ :=
        ih (acc ++ [realtimePoint metric row]) (fun r hr => hne r (List.mem_cons_of_mem _ hr)) hbad'
      exact ⟨r, List.mem_cons_of_mem _ hr, cell, hc, ha, hres⟩

/-- Unfolding of the realtime parser on a response with a header and a non-empty first
row. -/
theorem parseGAResponse_eq_loop (gaData : RealtimeData) (hH : gaData.ColumnHeaders ≠ [])
    (hR : gaData.Rows ≠ []) (hne : ∀ row ∈ gaData.Rows, row ≠ []) :
    ∃ lastHeader, gaData.ColumnHeaders.getLast? = some lastHeader ∧
      parseGAResponse gaData = parseGAResponseLoop lastHeader.Name gaData.Rows [] := by
  obtain ⟨lastHeader, hl, hm⟩ := getMetric_of_ne_nil gaData hH
  refine ⟨lastHeader, hl, ?_⟩
  unfold parseGAResponse
  cases hrows : gaData.Rows with
  | nil => exact absurd hrows hR
  | cons row0 rest =>
    have h0 : row0 ≠ [] := hne row0 (by rw [hrows]; exact List.mem_cons_self _ _)
    have hlen : ¬ row0.length < 1 := by
      have := List.length_pos.mpr h0
      omega
    simp [hlen, hm]

/-- On a response with a header, a row, no empty row and integer last cells, the realtime
parser returns the records of the rows, in row order. -/
theorem parseGAResponse_ok (gaData : RealtimeData) (hH : gaData.ColumnHeaders ≠ [])
    (hR : gaData.Rows ≠ []) (hne : ∀ row ∈ gaData.Rows, row ≠ [])
    (hint : ∀ row ∈ gaData.Rows, (rowValue row).isSome = true) :
    ∃ lastHeader, gaData.ColumnHeaders.getLast? = some lastHeader ∧
      parseGAResponse gaData =
        .ret (gaData.Rows.map (realtimePoint lastHeader.Name)) none := by
  obtain ⟨lastHeader, hl, hp⟩ := parseGAResponse_eq_loop gaData hH hR hne
  exact ⟨lastHeader, hl, by rw [hp, parseGAResponseLoop_ok _ _ _ hne hint]; simp⟩

/-! ## Lemmas on the ranged parser -/

theorem mapGet_mapPut_self (m : GoMap) (k v : Str) : mapGet (mapPut m k v) k = some v := by
  induction m with
  | nil => simp [mapPut, mapGet]
  | cons p rest ih =>
    obtain ⟨k', v'⟩ := p
    by_cases h : k' = k <;> simp [mapPut, mapGet, h, ih]

theorem mapGet_mapPut_ne (m : GoMap) (k v k' : Str) (hk : k ≠ k') :
    mapGet (mapPut m k v) k' = mapGet m k' := by
  induction m with
  | nil => simp [mapPut, mapGet, hk]
  | cons p rest ih =>
    obtain ⟨k₀, v₀⟩ := p
    by_cases h : k₀ = k
    · subst h
      simp [mapPut, mapGet, hk]
    · simp only [mapPut, h, if_false, mapGet]
      by_cases h' : k₀ = k' <;> simp [h', ih]

theorem mapLen_mapPut_of_none (m : GoMap) (k v : Str) (h : mapGet m k = none) :
    mapLen (mapPut m k v) = mapLen m + 1 := by
  induction m with
  | nil => simp [mapPut, mapLen]
  | cons p rest ih =>
    obtain ⟨k₀, v₀⟩ := p
    by_cases h0 : k₀ = k
    · simp [mapGet, h0] at h
    · have hrest : mapGet rest k = none := by simpa [mapGet, h0] using h
      have := ih hrest
      simp only [mapLen] at this
      simp [mapPut, mapLen, h0, this]

theorem fillData_some (row : List Str) (hs : List ColumnHeader) :
    ∀ (i : Nat) (data : GoMap), i + hs.length ≤ row.length →
      ∃ m, fillData row i hs data = some m := by
  induction hs with
  | nil => intro i data _; exact ⟨data, rfl⟩
  | cons h rest ih =>
    intro i data hle
    have hi : i < row.length := by simp only [List.length_cons] at hle; omega
    rw [fillData, goIndex_natCast, List.getElem?_eq_getElem hi]
    exact ih (i + 1) _ (by simp only [List.length_cons] at hle; omega)

theorem fillData_get_other (row : List Str) (hs : List ColumnHeader) (k : Str) :
    ∀ (i : Nat) (data m : GoMap), fillData row i hs data = some m →
      (∀ h ∈ hs, format h.Name ≠ k) → mapGet m k = mapGet data k := by
  induction hs with
  | nil =>
    intro i data m hm _
    simp only [fillData, Option.some.injEq] at hm
    rw [hm]
  | cons h rest ih =>
    intro i data m hm hk
    rw [fillData, goIndex_natCast] at hm
    cases hc : row[i]? with
    | none => rw [hc] at hm; cases hm
    | some cell =>
      rw [hc] at hm
      rw [ih (i + 1) _ m hm (fun h' hh => hk h' (List.mem_cons_of_mem _ hh)),
        mapGet_mapPut_ne _ _ _ _ (hk h (List.mem_cons_self _ _))]

theorem fillData_get (row : List Str) (hs : List ColumnHeader) :
    ∀ (i : Nat) (data m : GoMap), fillData row i hs data = some m →
      ∀ (t : Nat) (ht : t < hs.length),
        (∀ (u : Nat) (hu : u < hs.length), t < u → format hs[u].Name ≠ format hs[t].Name) →
        mapGet m (format hs[t].Name) = row[i + t]? := by
  induction hs with
  | nil => intro i data m _ t ht; simp at ht
  | cons h rest ih =>
    intro i data m hm t ht hlast
    rw [fillData, goIndex_natCast] at hm
    cases hc : row[i]? with
    | none => rw [hc] at hm; cases hm
    | some cell =>
      rw [hc] at hm
      cases t with
      | zero =>
        have hother : ∀ h' ∈ rest, format h'.Name ≠ format h.Name := by
          intro h' hh
          obtain ⟨u, hu, rfl⟩ := List.getElem_of_mem hh
          have := hlast (u + 1) (by simp only [List.length_cons]; omega) (by omega)
          simpa using this
        simp only [List.getElem_cons_zero, Nat.add_zero]
        rw [fillData_get_other row rest _ (i + 1) _ m hm hother, mapGet_mapPut_self, hc]
      | succ t =>
        have ht' : t < rest.length := by simp only [List.length_cons] at ht; omega
        have := ih (i + 1) _ m hm t ht' (by
          intro u hu htu
          have := hlast (u + 1) (by simp only [List.length_cons]; omega) (by omega)
          simpa using this)
        simp only [List.getElem_cons_succ]
        rw [this]
        congr 1
        omega

theorem fillData_len (row : List Str) (hs : List ColumnHeader) :
    ∀ (i : Nat) (data m : GoMap), fillData row i hs data = some m →
      (hs.map (fun h => format h.Name)).Nodup →
      (∀ h ∈ hs, mapGet data (format h.Name) = none) →
      mapLen m = mapLen data + hs.length := by
  induction hs with
  | nil =>
    intro i data m hm _ _
    simp only [fillData, Option.some.injEq] at hm
    simp [hm]
  | cons h rest ih =>
    intro i data m hm hnd hfresh
    rw [fillData, goIndex_natCast] at hm
    cases hc : row[i]? with
    | none => rw [hc] at hm; cases hm
    | some cell =>
      rw [hc] at hm
      simp only [List.map_cons, List.nodup_cons, List.mem_map, not_exists, not_and] at hnd
      have hfresh' : ∀ h' ∈ rest,
          mapGet (mapPut data (format h.Name) cell) (format h'.Name) = none := by
        intro h' hh
        rw [mapGet_mapPut_ne _ _ _ _ (fun he => hnd.1 h' hh he.symm)]
        exact hfresh h' (List.mem_cons_of_mem _ hh)
      rw [ih (i + 1) _ m hm hnd.2 hfresh',
        mapLen_mapPut_of_none _ _ _ (hfresh h (List.mem_cons_self _ _))]
      simp only [List.length_cons]
      omega

theorem fillData_take (row : List Str) (hs : List ColumnHeader) :
    ∀ (i : Nat) (data : GoMap), i + hs.length ≤ row.length →
      fillData (row.take (i + hs.length)) i hs data = fillData row i hs data := by
  induction hs with
  | nil => intro i data _; rfl
  | cons h rest ih =>
    intro i data hle
    simp only [List.length_cons] at hle
    have hi : i < row.length := by omega
    have hidx : (row.take (i + (h :: rest).length))[i]? = row[i]? := by
      rw [List.getElem?_take_of_lt]
      simp only [List.length_cons]
      omega
    have hrw : i + (h :: rest).length = (i + 1) + rest.length := by
      simp only [List.length_cons]; omega
    rw [fillData, fillData, goIndex_natCast, goIndex_natCast, hidx,
      List.getElem?_eq_getElem hi]
    simp only
    rw [hrw]
    exact ih (i + 1) _ (by omega)

theorem parseGAResponseForChargeLoop_ok (hs : List ColumnHeader) (rows : List (List Str)) :
    ∀ acc : List GABeatDataPoint, (∀ row ∈ rows, hs.length ≤ row.length) →
      parseGAResponseForChargeLoop hs rows acc =
        .ret (acc ++ rows.map (fun row => ⟨0, [], [], fillData row 0 hs []⟩)) none := by
  induction rows with
  | nil => intro acc _; simp [parseGAResponseForChargeLoop]
  | cons row rows ih =>
    intro acc hle
    obtain ⟨m, hm⟩ := fillData_some row hs 0 [] (by
      have := hle row (List.mem_cons_self _ _)
      omega)
    rw [parseGAResponseForChargeLoop, hm]
    simp only
    rw [ih _ (fun r hr => hle r (List.mem_cons_of_mem _ hr))]
    simp [hm]

/-- On a ranged response with a row, a non-empty first row and no row shorter than the
header list, the ranged parser returns one record per row, in row order, holding the map
filled from the row. -/
theorem parseGAResponseForCharge_ok (gaData : GaData) (dimensionCount metricCount : Nat)
    (hR : gaData.Rows ≠ []) (h0 : gaData.Rows.head? ≠ some [])
    (hle : ∀ row ∈ gaData.Rows, gaData.ColumnHeaders.length ≤ row.length) :
    parseGAResponseForCharge gaData dimensionCount metricCount =
      .ret (gaData.Rows.map
        (fun row => ⟨0, [], [], fillData row 0 gaData.ColumnHeaders []⟩)) none := by
  unfold parseGAResponseForCharge
  cases hrows : gaData.Rows with
  | nil => exact absurd hrows hR
  | cons row0 rest =>
    rw [hrows] at h0 hle
    have hne : row0 ≠ [] := by simpa using h0
    have hlen : ¬ row0.length < 1 := by
      have := List.length_pos.mpr hne
      omega
    simp only [hlen, if_false]
    rw [parseGAResponseForChargeLoop_ok _ _ _ hle]
    simp

/-! ## The field sanitiser -/

/-- C5: `format` is a total function and idempotent: sanitising a sanitised name changes
nothing. -/
theorem format_idempotent (s : Str) : format (format s) = format s :=
  format_of_isWord (format s) (format_isWord s)

/-- C6, as stated: on the name `xga:y` the code gives `xy`, while the reference that
removes the markers only as prefixes gives `xgay`. -/
theorem format_ne_leading_reference :
    format ['x', 'g', 'a', ':', 'y'] = ['x', 'y'] ∧
    formatLeadingReference ['x', 'g', 'a', ':', 'y'] = ['x', 'g', 'a', 'y'] ∧
    format ['x', 'g', 'a', ':', 'y'] ≠ formatLeadingReference ['x', 'g', 'a', ':', 'y'] := by
  decide

/-- C6, amended: for every string, `format` equals the reference that strips all
whitespace, removes every occurrence of `ga:` and then every occurrence of `rt:` (wherever
they stand), and keeps the characters of `[0-9A-Za-z_]` in their order. -/
theorem format_eq_reference (s : Str) : format s = formatReference s := by
  rw [format_eq_filter, replaceScan_eq_dropEvery, replaceScan_eq_dropEvery]
  rfl

/-- C7: every character of `format s` is in `[0-9A-Za-z_]`, `format s` is a subsequence
of `s`, and the empty string is sent to the empty string. -/
theorem format_word_subsequence (s : Str) :
    (∀ c ∈ format s, isWord c = true) ∧ (format s).Sublist s ∧ format [] = [] := by
  refine ⟨format_isWord s, ?_, by decide⟩
  rw [format_eq_filter]
  exact (List.filter_sublist _).trans
    ((replaceScan_sublist _ _ 0).trans
      ((replaceScan_sublist _ _ 0).trans (List.filter_sublist _)))

/-! ## The realtime parser -/

/-- C1: on a realtime response with at least one header, at least one row, every row as
long as the header list and every last cell an integer, `parseGAResponse` returns no error
and one record per row, in row order, the i-th record carrying the integer read from the
last cell of the i-th row. -/
theorem parseGAResponse_valid (gaData : RealtimeData)
    (hH : 1 ≤ gaData.ColumnHeaders.length) (hR : 1 ≤ gaData.Rows.length)
    (hlen : ∀ row ∈ gaData.Rows, row.length = gaData.ColumnHeaders.length)
    (hint : ∀ row ∈ gaData.Rows, ∃ cell v, row.getLast? = some cell ∧ Atoi cell = some v) :
    ∃ pts, parseGAResponse gaData = .ret pts none ∧ pts.length = gaData.Rows.length ∧
      ∀ i (hi : i < gaData.Rows.length), ∃ cell v pt,
        (gaData.Rows[i]).getLast? = some cell ∧ Atoi cell = some v ∧
        pts[i]? = some pt ∧ pt.Value = v := by
  have hH' : gaData.ColumnHeaders ≠ [] := List.length_pos.mp hH
  have hR' : gaData.Rows ≠ [] := List.length_pos.mp hR
  have hne : ∀ row ∈ gaData.Rows, row ≠ [] := fun row hr =>
    List.length_pos.mp (by rw [hlen row hr]; exact hH)
  have hval : ∀ row ∈ gaData.Rows, (rowValue row).isSome = true := fun row hr => by
    obtain ⟨cell, v, hc, hv⟩ := hint row hr
    simp [rowValue, hc, hv]
  obtain ⟨lastHeader, _, hp⟩ := parseGAResponse_ok gaData hH' hR' hne hval
  refine ⟨_, hp, by simp, ?_⟩
  intro i hi
  obtain ⟨cell, v, hc, hv⟩ := hint _ (List.getElem_mem hi)
  refine ⟨cell, v, realtimePoint lastHeader.Name gaData.Rows[i], hc, hv, ?_, ?_⟩
  · simp [List.getElem?_map, List.getElem?_eq_getElem hi]
  · simp [realtimePoint, rowValue, hc, hv]

/-- C1, at the response with headers `rt:country`, `rt:activeUsers` and the rows
`US, 10` and `FR, 3`. -/
theorem parseGAResponse_valid_witness :
    ∃ pts, parseGAResponse
        ⟨[⟨[], [], "rt:country".toList⟩, ⟨[], [], "rt:activeUsers".toList⟩],
          [["US".toList, "10".toList], ["FR".toList, "3".toList]]⟩ = .ret pts none ∧
      pts.length = 2 :=
  let ⟨pts, h1, h2, _⟩ := parseGAResponse_valid
    ⟨[⟨[], [], "rt:country".toList⟩, ⟨[], [], "rt:activeUsers".toList⟩],
      [["US".toList, "10".toList], ["FR".toList, "3".toList]]⟩
    (by decide) (by decide) (by decide) (by
      intro row hr
      simp only [List.mem_cons, List.mem_singleton, List.not_mem_nil, or_false] at hr
      rcases hr with rfl | rfl
      · exact ⟨"10".toList, 10, by decide, by decide⟩
      · exact ⟨"3".toList, 3, by decide, by decide⟩)
  ⟨pts, h1, h2⟩

/-- C3, as stated: on the response without rows both parsers return, without error, the
placeholder list, whose length is one and not zero. -/
theorem parse_no_rows_length_one :
    parseGAResponse ⟨[], []⟩ = .ret [⟨0, "empty".toList, "empty".toList, none⟩] none ∧
    parseGAResponseForCharge ⟨[], []⟩ 0 0 =
      .ret [⟨0, "empty".toList, "empty".toList, none⟩] none ∧
    ¬ (∃ pts, parseGAResponse ⟨[], []⟩ = .ret pts none ∧ pts.length = 0) ∧
    ¬ (∃ pts, parseGAResponseForCharge ⟨[], []⟩ 0 0 = .ret pts none ∧ pts.length = 0) := by
  refine ⟨rfl, rfl, ?_, ?_⟩
  · rintro ⟨pts, h, hl⟩
    have : pts = emptyResults := by
      simp only [parseGAResponse, Outcome.ret.injEq, and_true] at h
      exact h.symm
    rw [this] at hl
    exact absurd hl (by decide)
  · rintro ⟨pts, h, hl⟩
    have : pts = emptyResults := by
      simp only [parseGAResponseForCharge, Outcome.ret.injEq, and_true] at h
      exact h.symm
    rw [this] at hl
    exact absurd hl (by decide)

/-- C3, amended: on a response that has zero rows, or whose first row has zero cells, both
parsers return no error and the one-element placeholder list `emptyResults`, whose only
record has value 0, both names `empty` and no map. -/
theorem parse_empty_response (gaData : RealtimeData) (gaDataCharge : GaData)
    (dimensionCount metricCount : Nat) :
    ((gaData.Rows = [] ∨ gaData.Rows.head? = some []) →
      parseGAResponse gaData =
        .ret [⟨0, "empty".toList, "empty".toList, none⟩] none) ∧
    ((gaDataCharge.Rows = [] ∨ gaDataCharge.Rows.head? = some []) →
      parseGAResponseForCharge gaDataCharge dimensionCount metricCount =
        .ret [⟨0, "empty".toList, "empty".toList, none⟩] none) := by
  constructor
  · intro h
    unfold parseGAResponse
    cases hrows : gaData.Rows with
    | nil => rfl
    | cons row0 rest =>
      rw [hrows] at h
      have h0 : row0 = [] := by simpa using h
      subst h0
      rfl
  · intro h
    unfold parseGAResponseForCharge
    cases hrows : gaDataCharge.Rows with
    | nil => rfl
    | cons row0 rest =>
      rw [hrows] at h
      have h0 : row0 = [] := by simpa using h
      subst h0
      rfl

/-- C3, amended, at a realtime response without rows and a ranged response whose first
row is empty. -/
theorem parse_empty_response_witness :
    parseGAResponse ⟨[⟨[], [], "rt:activeUsers".toList⟩], []⟩ =
      .ret [⟨0, "empty".toList, "empty".toList, none⟩] none ∧
    parseGAResponseForCharge ⟨[⟨[], [], "ga:date".toList⟩], [[], ["1".toList]]⟩ 1 1 =
      .ret [⟨0, "empty".toList, "empty".toList, none⟩] none :=
  ⟨(parse_empty_response ⟨[⟨[], [], "rt:activeUsers".toList⟩], []⟩ ⟨[], []⟩ 0 0).1
      (Or.inl rfl),
    (parse_empty_response ⟨[], []⟩ ⟨[⟨[], [], "ga:date".toList⟩], [[], ["1".toList]]⟩ 1 1).2
      (Or.inr rfl)⟩

/-- C4: on a realtime response with at least one header, at least one row and no empty
row, `parseGAResponse` returns an error exactly when some row's last cell is not an integer
for `strconv.Atoi`.  In that case the whole batch fails: what is returned is the
placeholder list `errorResults` with the conversion error of such a cell, and no record of
any valid row.  Otherwise no row is skipped: one record per row is returned. -/
theorem parseGAResponse_error_iff (gaData : RealtimeData)
    (hH : 1 ≤ gaData.ColumnHeaders.length) (hR : 1 ≤ gaData.Rows.length)
    (hne : ∀ row ∈ gaData.Rows, row ≠ []) :
    ((parseGAResponse gaData).isError = true ↔
      ∃ row ∈ gaData.Rows, ∃ cell, row.getLast? = some cell ∧ Atoi cell = none) ∧
    ((∃ row ∈ gaData.Rows, ∃ cell, row.getLast? = some cell ∧ Atoi cell = none) →
      ∃ row ∈ gaData.Rows, ∃ cell, row.getLast? = some cell ∧ Atoi cell = none ∧
        parseGAResponse gaData = .ret errorResults (some (.convert cell))) ∧
    ((¬ ∃ row ∈ gaData.Rows, ∃ cell, row.getLast? = some cell ∧ Atoi cell = none) →
      ∃ pts, parseGAResponse gaData = .ret pts none ∧ pts.length = gaData.Rows.length) := by
  have hH' : gaData.ColumnHeaders ≠ [] := List.length_pos.mp hH
  have hR' : gaData.Rows ≠ [] := List.length_pos.mp hR
  obtain ⟨lastHeader, _, hp⟩ := parseGAResponse_eq_loop gaData hH' hR' hne
  have hbadIff : ∀ row ∈ gaData.Rows,
      (rowValue row = none ↔ ∃ cell, row.getLast? = some cell ∧ Atoi cell = none) := by
    intro row hr
    have hlast := List.getLast?_eq_getLast _ (hne row hr)
    constructor
    · intro h
      exact ⟨_, hlast, by simpa [rowValue, hlast] using h⟩
    · rintro ⟨cell, hc, ha⟩
      simp [rowValue, hc, ha]
  have hbad : (∃ row ∈ gaData.Rows, ∃ cell, row.getLast? = some cell ∧ Atoi cell = none) →
      ∃ row ∈ gaData.Rows, ∃ cell, row.getLast? = some cell ∧ Atoi cell = none ∧
        parseGAResponse gaData = .ret errorResults (some (.convert cell)) := by
    rintro ⟨row, hr, hcell⟩
    obtain ⟨r, hr', cell, hc, ha, hres⟩ := parseGAResponseLoop_bad lastHeader.Name
      gaData.Rows [] hne ⟨row, hr, (hbadIff row hr).mpr hcell⟩
    exact ⟨r, hr', cell, hc, ha, by rw [hp, hres]⟩
  have hgood : (¬ ∃ row ∈ gaData.Rows, ∃ cell, row.getLast? = some cell ∧ Atoi cell = none) →
      ∃ pts, parseGAResponse gaData = .ret pts none ∧ pts.length = gaData.Rows.length := by
    intro hno
    have hval : ∀ row ∈ gaData.Rows, (rowValue row).isSome = true := by
      intro row hr
      cases hv : rowValue row with
      | none => exact absurd ⟨row, hr, (hbadIff row hr).mp hv⟩ hno
      | some v => rfl
    exact ⟨_, by rw [hp, parseGAResponseLoop_ok _ _ _ hne hval], by simp⟩
  refine ⟨⟨?_, ?_⟩, hbad, hgood⟩
  · intro herr
    by_contra hno
    obtain ⟨pts, hpts, _⟩ := hgood hno
    rw [hpts] at herr
    exact absurd herr (by simp [Outcome.isError])
  · intro h
    obtain ⟨_, _, cell, _, _, hres⟩ := hbad h
    rw [hres]
    rfl

/-- C4, at a response whose first row is valid and whose second row ends in `x`: the
whole batch fails. -/
theorem parseGAResponse_error_iff_witness :
    (parseGAResponse ⟨[⟨[], [], "rt:country".toList⟩, ⟨[], [], "rt:activeUsers".toList⟩],
      [["US".toList, "10".toList], ["FR".toList, "x".toList]]⟩).isError = true :=
  (parseGAResponse_error_iff
    ⟨[⟨[], [], "rt:country".toList⟩, ⟨[], [], "rt:activeUsers".toList⟩],
      [["US".toList, "10".toList], ["FR".toList, "x".toList]]⟩
    (by decide) (by decide) (by decide)).1.mpr
    ⟨["FR".toList, "x".toList], by decide, "x".toList, by decide, by decide⟩

/-- C8, as stated: on the example response the records returned carry the dimension names
`US` and `FR`, the cells of the rows, and not the sanitised column header `country`. -/
theorem parseGAResponse_example_not_header :
    parseGAResponse
        ⟨[⟨[], [], "rt:country".toList⟩, ⟨[], [], "rt:activeUsers".toList⟩],
          [["US".toList, "10".toList], ["FR".toList, "3".toList]]⟩ =
      .ret [⟨10, "US".toList, "activeUsers".toList, none⟩,
        ⟨3, "FR".toList, "activeUsers".toList, none⟩] none ∧
    parseGAResponse
        ⟨[⟨[], [], "rt:country".toList⟩, ⟨[], [], "rt:activeUsers".toList⟩],
          [["US".toList, "10".toList], ["FR".toList, "3".toList]]⟩ ≠
      .ret [⟨10, "country".toList, "activeUsers".toList, none⟩,
        ⟨3, "country".toList, "activeUsers".toList, none⟩] none := by
  decide

/-- C8, amended: on the example response `parseGAResponse` returns exactly the two records
`{10, US, activeUsers}` and `{3, FR, activeUsers}`; in general, on a response with a
header, a row, no empty row and integer last cells, the dimension name of the i-th record
is the sanitised join with `_` of the cells of the i-th row except the last, whatever the
column headers are. -/
theorem parseGAResponse_dimension_from_cells :
    parseGAResponse
        ⟨[⟨[], [], "rt:country".toList⟩, ⟨[], [], "rt:activeUsers".toList⟩],
          [["US".toList, "10".toList], ["FR".toList, "3".toList]]⟩ =
      .ret [⟨10, "US".toList, "activeUsers".toList, none⟩,
        ⟨3, "FR".toList, "activeUsers".toList, none⟩] none ∧
    ∀ gaData : RealtimeData, 1 ≤ gaData.ColumnHeaders.length → 1 ≤ gaData.Rows.length →
      (∀ row ∈ gaData.Rows, row ≠ []) →
      (∀ row ∈ gaData.Rows, ∃ cell v, row.getLast? = some cell ∧ Atoi cell = some v) →
      ∃ pts, parseGAResponse gaData = .ret pts none ∧
        ∀ i (hi : i < gaData.Rows.length), ∃ pt, pts[i]? = some pt ∧
          pt.DimensionName = format (stringsJoin (gaData.Rows[i]).dropLast ['_']) := by
  refine ⟨by decide, ?_⟩
  intro gaData hH hR hne hint
  have hval : ∀ row ∈ gaData.Rows, (rowValue row).isSome = true := fun row hr => by
    obtain ⟨cell, v, hc, hv⟩ := hint row hr
    simp [rowValue, hc, hv]
  obtain ⟨lastHeader, _, hp⟩ := parseGAResponse_ok gaData (List.length_pos.mp hH)
    (List.length_pos.mp hR) hne hval
  refine ⟨_, hp, ?_⟩
  intro i hi
  exact ⟨realtimePoint lastHeader.Name gaData.Rows[i],
    by simp [List.getElem?_map, List.getElem?_eq_getElem hi], rfl⟩

/-- C8, amended, at a response whose only row has two dimension cells. -/
theorem parseGAResponse_dimension_from_cells_witness :
    ∃ pts, parseGAResponse ⟨[⟨[], [], "rt:activeUsers".toList⟩],
        [["US".toList, "New York".toList, "7".toList]]⟩ = .ret pts none ∧
      ∀ i (hi : i < [["US".toList, "New York".toList, "7".toList]].length),
        ∃ pt, pts[i]? = some pt ∧ pt.DimensionName =
          format (stringsJoin
            ([["US".toList, "New York".toList, "7".toList]][i]).dropLast ['_']) :=
  parseGAResponse_dimension_from_cells.2
    ⟨[⟨[], [], "rt:activeUsers".toList⟩], [["US".toList, "New York".toList, "7".toList]]⟩
    (by decide) (by decide) (by decide)
    (fun row hr => by
      simp only [List.mem_singleton] at hr
      subst hr
      exact ⟨"7".toList, 7, by decide, by decide⟩)

/-! ## The ranged parser -/

/-- C2: on a ranged response with at least one row, a non-empty first row and every row
as long as the header list, `parseGAResponseForCharge` returns no error and one record per
row, in row order, each holding a map.  The map sends the sanitised name of a column to
the cell of that column whenever no later column has the same sanitised name; so when two
columns share a sanitised name the cell of the later one is stored.  When the sanitised
names are pairwise distinct the map has exactly one entry per header and sends every
sanitised name to the cell of its column. -/
theorem parseGAResponseForCharge_valid (gaData : GaData) (dimensionCount metricCount : Nat)
    (hR : 1 ≤ gaData.Rows.length) (h0 : gaData.Rows.head? ≠ some [])
    (hlen : ∀ row ∈ gaData.Rows, row.length = gaData.ColumnHeaders.length) :
    ∃ pts, parseGAResponseForCharge gaData dimensionCount metricCount = .ret pts none ∧
      pts.length = gaData.Rows.length ∧
      ∀ i (hi : i < gaData.Rows.length), ∃ m, pts[i]? = some ⟨0, [], [], some m⟩ ∧
        (∀ j (hj : j < gaData.ColumnHeaders.length),
          (∀ u (hu : u < gaData.ColumnHeaders.length), j < u →
            format gaData.ColumnHeaders[u].Name ≠ format gaData.ColumnHeaders[j].Name) →
          mapGet m (format gaData.ColumnHeaders[j].Name) = (gaData.Rows[i])[j]?) ∧
        (∀ j k (hj : j < gaData.ColumnHeaders.length) (hk : k < gaData.ColumnHeaders.length),
          j < k →
          format gaData.ColumnHeaders[j].Name = format gaData.ColumnHeaders[k].Name →
          (∀ u (hu : u < gaData.ColumnHeaders.length), k < u →
            format gaData.ColumnHeaders[u].Name ≠ format gaData.ColumnHeaders[k].Name) →
          mapGet m (format gaData.ColumnHeaders[j].Name) = (gaData.Rows[i])[k]?) ∧
        ((gaData.ColumnHeaders.map (fun h => format h.Name)).Nodup →
          mapLen m = gaData.ColumnHeaders.length ∧
          ∀ j (hj : j < gaData.ColumnHeaders.length),
            mapGet m (format gaData.ColumnHeaders[j].Name) = (gaData.Rows[i])[j]?) := by
  have hp := parseGAResponseForCharge_ok gaData dimensionCount metricCount
    (List.length_pos.mp hR) h0 (fun row hr => le_of_eq (hlen row hr).symm)
  refine ⟨_, hp, by simp, ?_⟩
  intro i hi
  have hrow : gaData.Rows[i] ∈ gaData.Rows := List.getElem_mem hi
  obtain ⟨m, hm⟩ := fillData_some gaData.Rows[i] gaData.ColumnHeaders 0 []
    (by rw [hlen _ hrow]; omega)
  have hget : ∀ j (hj : j < gaData.ColumnHeaders.length),
      (∀ u (hu : u < gaData.ColumnHeaders.length), j < u →
        format gaData.ColumnHeaders[u].Name ≠ format gaData.ColumnHeaders[j].Name) →
      mapGet m (format gaData.ColumnHeaders[j].Name) = (gaData.Rows[i])[j]? := by
    intro j hj hlast
    have := fillData_get gaData.Rows[i] gaData.ColumnHeaders 0 [] m hm j hj hlast
    simpa using this
  refine ⟨m, ?_, hget, ?_, ?_⟩
  · simp [List.getElem?_map, List.getElem?_eq_getElem hi, hm]
  · intro j k hj hk _ hjk hlast
    rw [hjk]
    exact hget k hk hlast
  · intro hnd
    refine ⟨?_, ?_⟩
    · have := fillData_len gaData.Rows[i] gaData.ColumnHeaders 0 [] m hm hnd
        (fun _ _ => rfl)
      simpa [mapLen] using this
    · intro j hj
      apply hget j hj
      intro u hu hju heq
      have hinj := (List.nodup_iff_injective_get.mp hnd)
      have hj' : j < (gaData.ColumnHeaders.map (fun h => format h.Name)).length := by
        simpa using hj
      have hu' : u < (gaData.ColumnHeaders.map (fun h => format h.Name)).length := by
        simpa using hu
      have := @hinj ⟨u, hu'⟩ ⟨j, hj'⟩ (by simpa using heq)
      have : u = j := by simpa using this
      omega

/-- C2, at the response with headers `ga:date`, `ga:pageviews` and the row
`20230115, 42`: the record map is `date ↦ 20230115`, `pageviews ↦ 42`. -/
theorem parseGAResponseForCharge_valid_witness :
    (∃ pts, parseGAResponseForCharge
        ⟨[⟨[], [], "ga:date".toList⟩, ⟨[], [], "ga:pageviews".toList⟩],
          [["20230115".toList, "42".toList]]⟩ 1 1 = .ret pts none ∧ pts.length = 1) ∧
    parseGAResponseForCharge
        ⟨[⟨[], [], "ga:date".toList⟩, ⟨[], [], "ga:pageviews".toList⟩],
          [["20230115".toList, "42".toList]]⟩ 1 1 =
      .ret [⟨0, [], [], some [("date".toList, "20230115".toList),
        ("pageviews".toList, "42".toList)]⟩] none :=
  ⟨(parseGAResponseForCharge_valid
      ⟨[⟨[], [], "ga:date".toList⟩, ⟨[], [], "ga:pageviews".toList⟩],
        [["20230115".toList, "42".toList]]⟩ 1 1 (by decide) (by decide) (by decide)).imp
      (fun _ h => ⟨h.1, h.2.1⟩),
    by decide⟩

/-! ## Rows and headers of different length -/

/-- C9, as stated: a realtime row with one cell under two headers is accepted and gives a
record, and a ranged row with two cells under one header is accepted with its second cell
left out; neither parser returns an error. -/
theorem parse_mismatch_no_error :
    parseGAResponse
        ⟨[⟨[], [], "rt:country".toList⟩, ⟨[], [], "rt:activeUsers".toList⟩],
          [["10".toList]]⟩ =
      .ret [⟨10, [], "activeUsers".toList, none⟩] none ∧
    parseGAResponseForCharge
        ⟨[⟨[], [], "ga:date".toList⟩], [["20230115".toList, "42".toList]]⟩ 1 1 =
      .ret [⟨0, [], [], some [("date".toList, "20230115".toList)]⟩] none ∧
    (parseGAResponse
        ⟨[⟨[], [], "rt:country".toList⟩, ⟨[], [], "rt:activeUsers".toList⟩],
          [["10".toList]]⟩).isError = false ∧
    (parseGAResponseForCharge
        ⟨[⟨[], [], "ga:date".toList⟩], [["20230115".toList, "42".toList]]⟩ 1 1).isError =
      false := by
  decide

/-- C9, amended: neither parser compares the cell count of a row with the number of
headers.  The realtime parser, given a header, a row, no empty row and integer last cells,
returns no error and one record per row whatever the lengths of the rows.  The ranged
parser, given a row, a non-empty first row and no row shorter than the header list,
returns no error and one record per row, whose map is the one filled from the first
`len(headers)` cells of the row: the cells beyond are not read. -/
theorem parse_row_length_unchecked (gaData : RealtimeData) (gaDataCharge : GaData)
    (dimensionCount metricCount : Nat) :
    (1 ≤ gaData.ColumnHeaders.length → 1 ≤ gaData.Rows.length →
      (∀ row ∈ gaData.Rows, row ≠ []) →
      (∀ row ∈ gaData.Rows, ∃ cell v, row.getLast? = some cell ∧ Atoi cell = some v) →
      ∃ pts, parseGAResponse gaData = .ret pts none ∧ pts.length = gaData.Rows.length) ∧
    (1 ≤ gaDataCharge.Rows.length → gaDataCharge.Rows.head? ≠ some [] →
      (∀ row ∈ gaDataCharge.Rows, gaDataCharge.ColumnHeaders.length ≤ row.length) →
      ∃ pts, parseGAResponseForCharge gaDataCharge dimensionCount metricCount =
          .ret pts none ∧
        pts.length = gaDataCharge.Rows.length ∧
        ∀ i (hi : i < gaDataCharge.Rows.length), ∃ m,
          fillData ((gaDataCharge.Rows[i]).take gaDataCharge.ColumnHeaders.length) 0
            gaDataCharge.ColumnHeaders [] = some m ∧
          pts[i]? = some ⟨0, [], [], some m⟩) := by
  constructor
  · intro hH hR hne hint
    have hval : ∀ row ∈ gaData.Rows, (rowValue row).isSome = true := fun row hr => by
      obtain ⟨cell, v, hc, hv⟩ := hint row hr
      simp [rowValue, hc, hv]
    obtain ⟨lastHeader, _, hp⟩ := parseGAResponse_ok gaData (List.length_pos.mp hH)
      (List.length_pos.mp hR) hne hval
    exact ⟨_, hp, by simp⟩
  · intro hR h0 hle
    have hp := parseGAResponseForCharge_ok gaDataCharge dimensionCount metricCount
      (List.length_pos.mp hR) h0 hle
    refine ⟨_, hp, by simp, ?_⟩
    intro i hi
    have hrow : gaDataCharge.Rows[i] ∈ gaDataCharge.Rows := List.getElem_mem hi
    have hlei : 0 + gaDataCharge.ColumnHeaders.length ≤ (gaDataCharge.Rows[i]).length := by
      have := hle _ hrow
      omega
    obtain ⟨m, hm⟩ := fillData_some gaDataCharge.Rows[i] gaDataCharge.ColumnHeaders 0 [] hlei
    have htake := fillData_take gaDataCharge.Rows[i] gaDataCharge.ColumnHeaders 0 [] hlei
    rw [Nat.zero_add] at htake
    exact ⟨m, by rw [htake, hm],
      by simp [List.getElem?_map, List.getElem?_eq_getElem hi, hm]⟩

/-- C9, amended, at a realtime row shorter than the header list and a ranged row longer
than the header list. -/
theorem parse_row_length_unchecked_witness :
    (∃ pts, parseGAResponse
        ⟨[⟨[], [], "rt:country".toList⟩, ⟨[], [], "rt:activeUsers".toList⟩],
          [["10".toList]]⟩ = .ret pts none ∧ pts.length = 1) ∧
    (∃ pts, parseGAResponseForCharge
        ⟨[⟨[], [], "ga:date".toList⟩], [["20230115".toList, "42".toList]]⟩ 1 1 =
          .ret pts none ∧ pts.length = 1) :=
  ⟨(parse_row_length_unchecked
      ⟨[⟨[], [], "rt:country".toList⟩, ⟨[], [], "rt:activeUsers".toList⟩], [["10".toList]]⟩
      ⟨[], []⟩ 0 0).1 (by decide) (by decide) (by decide)
      (fun row hr => by
        simp only [List.mem_singleton] at hr
        subst hr
        exact ⟨"10".toList, 10, by decide, by decide⟩),
    ((parse_row_length_unchecked ⟨[], []⟩
      ⟨[⟨[], [], "ga:date".toList⟩], [["20230115".toList, "42".toList]]⟩ 1 1).2
      (by decide) (by decide) (by decide)).imp (fun _ h => ⟨h.1, h.2.1⟩)⟩

/-! ## Validation of the configuration -/

/-- C10: `getGAReportData` validates in the order credential path, identifiers, metrics,
dimensions.  When some check fails, the error returned is that of the first failing check
in this order, whatever the later fields hold, together with `errorResults`, and the trace
holds no fetch.  When all four checks pass, exactly one fetch is made: the ranged fetch for
the type `gaservice`, the handed-in realtime fetch otherwise. -/
theorem getGAReportData_validation_order (env : Env) (gaConfig : GoogleAnalyticsConfig)
    (gaDataRetrieverFunc : gaDataRetriever) :
    (∀ e, firstFailure env gaConfig = some e →
      (getGAReportData env gaConfig gaDataRetrieverFunc).2 = .ret errorResults (some e) ∧
      ∀ c ∈ (getGAReportData env gaConfig gaDataRetrieverFunc).1, c.isFetch = false) ∧
    (firstFailure env gaConfig = none →
      (getGAReportData env gaConfig gaDataRetrieverFunc).1.filter Call.isFetch =
        [fetchCall gaConfig]) := by
  unfold firstFailure credentialCheck nonEmptyCheck getGAReportData initCredentialsPath
    validateConfig fetchCall
  by_cases hp : gaConfig.GoogleCredentialsFilePath = []
  · simp [hp]
  · cases hs : env.osStat gaConfig.GoogleCredentialsFilePath with
    | some pathErr => simp [hp, hs, Call.isFetch]
    | none =>
      by_cases hi : gaConfig.GoogleAnalyticsIDs = []
      · simp [hp, hs, hi, Call.isFetch]
      · by_cases hm : gaConfig.GoogleAnalyticsMetrics = []
        · simp [hp, hs, hi, hm, Call.isFetch]
        · by_cases hd : gaConfig.GoogleAnalyticsDimensions = []
          · simp [hp, hs, hi, hm, hd, Call.isFetch]
          · by_cases ht : gaConfig.GoogleAnalyticsType =
                ['g', 'a', 's', 'e', 'r', 'v', 'i', 'c', 'e']
            · cases hf : env.getGADataForCharge gaConfig.GoogleAnalyticsIDs
                gaConfig.GoogleAnalyticsMetrics gaConfig.GoogleAnalyticsDimensions
                gaConfig.GoogleAnalyticsStarttime gaConfig.GoogleAnalyticsEndtime <;>
                simp [hp, hs, hi, hm, hd, ht, hf, Call.isFetch, List.filter_cons]
            · cases hf : gaDataRetrieverFunc gaConfig.GoogleAnalyticsIDs
                gaConfig.GoogleAnalyticsMetrics gaConfig.GoogleAnalyticsDimensions <;>
                simp [hp, hs, hi, hm, hd, ht, hf, Call.isFetch, List.filter_cons]

/-- C10, at a configuration with a readable credential file, no identifiers and no
metrics: the error is that of the identifiers; and at a complete realtime configuration:
the realtime fetch is made. -/
theorem getGAReportData_validation_order_witness :
    ((getGAReportData ⟨fun _ => none, fun _ _ _ _ _ => .error []⟩
        ⟨"creds.json".toList, [], [], "rt:country".toList, [], [], [], [], [], []⟩
        (fun _ _ _ => .error [])).2 =
      .ret errorResults (some (.configEmpty "google analytics IDs".toList)) ∧
      ∀ c ∈ (getGAReportData ⟨fun _ => none, fun _ _ _ _ _ => .error []⟩
        ⟨"creds.json".toList, [], [], "rt:country".toList, [], [], [], [], [], []⟩
        (fun _ _ _ => .error [])).1, c.isFetch = false) ∧
    (getGAReportData ⟨fun _ => none, fun _ _ _ _ _ => .error []⟩
        ⟨"creds.json".toList, "ga:1".toList, "rt:activeUsers".toList, "rt:country".toList,
          [], [], [], [], [], []⟩
        (fun _ _ _ => .error [])).1.filter Call.isFetch =
      [.gaDataRetrieverFunc "ga:1".toList "rt:activeUsers".toList "rt:country".toList] :=
  ⟨(getGAReportData_validation_order ⟨fun _ => none, fun _ _ _ _ _ => .error []⟩
      ⟨"creds.json".toList, [], [], "rt:country".toList, [], [], [], [], [], []⟩
      (fun _ _ _ => .error [])).1 _ rfl,
    (getGAReportData_validation_order ⟨fun _ => none, fun _ _ _ _ _ => .error []⟩
      ⟨"creds.json".toList, "ga:1".toList, "rt:activeUsers".toList, "rt:country".toList,
        [], [], [], [], [], []⟩
      (fun _ _ _ => .error [])).2 rfl⟩

/-! ## Results returned with an error -/

theorem parseGAResponseLoop_error (metric : Str) (rows : List (List Str)) :
    ∀ (acc pts : List GABeatDataPoint) (e : GAError),
      parseGAResponseLoop metric rows acc = .ret pts (some e) → pts = errorResults := by
  induction rows with
  | nil => intro acc pts e h; simp [parseGAResponseLoop] at h
  | cons row rows ih =>
    intro acc pts e h
    by_cases hrow : row = []
    · subst hrow
      have : parseGAResponseLoop metric ([] :: rows) acc = .panic := by
        simp [parseGAResponseLoop, goSliceTo]
      rw [this] at h
      cases h
    · rw [parseGAResponseLoop_cons metric row rows acc hrow] at h
      cases hv : rowValue row with
      | none =>
        rw [hv] at h
        simp only [Outcome.ret.injEq] at h
        exact h.1.symm
      | some v =>
        rw [hv] at h
        exact ih _ pts e h

theorem parseGAResponse_error (gaData : RealtimeData) (pts : List GABeatDataPoint)
    (e : GAError) (h : parseGAResponse gaData = .ret pts (some e)) : pts = errorResults := by
  unfold parseGAResponse at h
  split at h
  · cases h
  · split at h
    · cases h
    · split at h
      · cases h
      · exact parseGAResponseLoop_error _ _ _ pts e h

theorem parseGAResponseForChargeLoop_no_error (hs : List ColumnHeader)
    (rows : List (List Str)) :
    ∀ (acc pts : List GABeatDataPoint) (err : Option GAError),
      parseGAResponseForChargeLoop hs rows acc = .ret pts err → err = none := by
  induction rows with
  | nil =>
    intro acc pts err h
    simp only [parseGAResponseForChargeLoop, Outcome.ret.injEq] at h
    exact h.2.symm
  | cons row rows ih =>
    intro acc pts err h
    rw [parseGAResponseForChargeLoop] at h
    split at h
    · cases h
    · exact ih _ pts err h

theorem parseGAResponseForCharge_no_error (gaData : GaData) (dimensionCount metricCount : Nat)
    (pts : List GABeatDataPoint) (err : Option GAError)
    (h : parseGAResponseForCharge gaData dimensionCount metricCount = .ret pts err) :
    err = none := by
  unfold parseGAResponseForCharge at h
  split at h
  · simp only [Outcome.ret.injEq] at h
    exact h.2.symm
  · split at h
    · simp only [Outcome.ret.injEq] at h
      exact h.2.symm
    · exact parseGAResponseForChargeLoop_no_error _ _ _ pts err h

/-- C11, as stated: with an empty credential path `getGAReportData` returns an error
together with the placeholder list `errorResults`, whose length is one and not zero. -/
theorem getGAReportData_error_length_one :
    (getGAReportData ⟨fun _ => none, fun _ _ _ _ _ => .error []⟩
        ⟨[], "ga:1".toList, "rt:activeUsers".toList, "rt:country".toList,
          [], [], [], [], [], []⟩
        (fun _ _ _ => .error [])).2 =
      .ret [⟨-1, "error".toList, "error".toList, none⟩] (some .credentialsEmpty) ∧
    ([⟨-1, "error".toList, "error".toList, none⟩] : List GABeatDataPoint).length ≠ 0 := by
  decide

/-- C11, amended: whenever `getGAReportData` returns an error (from validation, from a
fetch or from the realtime parser), the list returned with it is the one-element
placeholder list `errorResults`, whose only record has value -1, both names `error` and no
map. -/
theorem getGAReportData_error_results (env : Env) (gaConfig : GoogleAnalyticsConfig)
    (gaDataRetrieverFunc : gaDataRetriever) (pts : List GABeatDataPoint) (e : GAError)
    (h : (getGAReportData env gaConfig gaDataRetrieverFunc).2 = .ret pts (some e)) :
    pts = [⟨-1, "error".toList, "error".toList, none⟩] := by
  have hgoal : pts = errorResults := by
    unfold getGAReportData at h
    repeat' split at h
    all_goals try dsimp only at h
    all_goals first
      | (simp only [Outcome.ret.injEq] at h; exact h.1.symm)
      | exact parseGAResponse_error _ pts e h
      | exact Option.noConfusion (parseGAResponseForCharge_no_error _ _ _ pts (some e) h)
  rw [hgoal]
  rfl

/-- C11, amended, at a realtime response whose only row ends in `x`: the parse error comes
with `errorResults`, which is the one placeholder record. -/
theorem getGAReportData_error_results_witness :
    (getGAReportData ⟨fun _ => none, fun _ _ _ _ _ => .error []⟩
        ⟨"creds.json".toList, "ga:1".toList, "rt:activeUsers".toList, "rt:country".toList,
          [], [], [], [], [], []⟩
        (fun _ _ _ => .ok
          ⟨[⟨[], [], "rt:country".toList⟩, ⟨[], [], "rt:activeUsers".toList⟩],
            [["US".toList, "x".toList]]⟩)).2 =
      .ret errorResults (some (.convert "x".toList)) ∧
    errorResults = [⟨-1, "error".toList, "error".toList, none⟩] :=
  ⟨by decide,
    getGAReportData_error_results ⟨fun _ => none, fun _ _ _ _ _ => .error []⟩
      ⟨"creds.json".toList, "ga:1".toList, "rt:activeUsers".toList, "rt:country".toList,
        [], [], [], [], [], []⟩
      (fun _ _ _ => .ok
        ⟨[⟨[], [], "rt:country".toList⟩, ⟨[], [], "rt:activeUsers".toList⟩],
          [["US".toList, "x".toList]]⟩)
      errorResults (.convert "x".toList) (by decide)⟩

/-! ## Responses the parsers do not survive -/

/-- C17: the code panics on well-formed responses.  The realtime parser indexes the header
list at -1 when there is no header but a non-empty first row, and slices a row at -1 when
a row after the first is empty; the ranged parser indexes a row beyond its end when the
row is shorter than the header list. -/
theorem parse_panics :
    parseGAResponse ⟨[], [["1".toList]]⟩ = .panic ∧
    parseGAResponse ⟨[⟨[], [], "rt:activeUsers".toList⟩], [["1".toList], []]⟩ = .panic ∧
    parseGAResponseForCharge
      ⟨[⟨[], [], "ga:date".toList⟩, ⟨[], [], "ga:pageviews".toList⟩],
        [["20230115".toList]]⟩ 1 1 = .panic := by
  decide

/-! ## Names of the realtime records -/

theorem getMetric_some (gaData : RealtimeData) (metric : Str)
    (h : getMetric gaData = some metric) :
    ∃ lastHeader, gaData.ColumnHeaders.getLast? = some lastHeader ∧
      metric = lastHeader.Name := by
  by_cases hH : gaData.ColumnHeaders = []
  · simp [getMetric, goIndex, hH] at h
  · obtain ⟨lastHeader, hl, hm⟩ := getMetric_of_ne_nil gaData hH
    rw [hm] at h
    exact ⟨lastHeader, hl, (Option.some.inj h).symm⟩

theorem parseGAResponseLoop_ret (metric : Str) (rows : List (List Str)) :
    ∀ (acc pts : List GABeatDataPoint),
      parseGAResponseLoop metric rows acc = .ret pts none →
      pts = acc ++ rows.map (realtimePoint metric) := by
  induction rows with
  | nil =>
    intro acc pts h
    simp only [parseGAResponseLoop, Outcome.ret.injEq, and_true] at h
    simp [h]
  | cons row rows ih =>
    intro acc pts h
    by_cases hrow : row = []
    · subst hrow
      have : parseGAResponseLoop metric ([] :: rows) acc = .panic := by
        simp [parseGAResponseLoop, goSliceTo]
      rw [this] at h
      cases h
    · rw [parseGAResponseLoop_cons metric row rows acc hrow] at h
      cases hv : rowValue row with
      | none =>
        rw [hv] at h
        simp at h
      | some v =>
        rw [hv] at h
        rw [ih _ pts h]
        simp

/-- A realtime parse that returns no error on a response whose first row has a cell
returns the records of the rows under the name of the last header. -/
theorem parseGAResponse_ret (gaData : RealtimeData) (pts : List GABeatDataPoint)
    (h0 : gaData.Rows.head? ≠ some [])
    (hR : gaData.Rows ≠ [])
    (h : parseGAResponse gaData = .ret pts none) :
    ∃ lastHeader, gaData.ColumnHeaders.getLast? = some lastHeader ∧
      pts = gaData.Rows.map (realtimePoint lastHeader.Name) := by
  unfold parseGAResponse at h
  cases hrows : gaData.Rows with
  | nil => exact absurd hrows hR
  | cons row0 rest =>
    rw [hrows] at h0
    have hne : row0 ≠ [] := by simpa using h0
    have hlen : ¬ row0.length < 1 := by
      have := List.length_pos.mpr hne
      omega
    simp only [hrows, hlen, if_false] at h
    cases hm : getMetric gaData with
    | none => rw [hm] at h; cases h
    | some metric =>
      rw [hm] at h
      obtain ⟨lastHeader, hl, rfl⟩ := getMetric_some gaData metric hm
      refine ⟨lastHeader, hl, ?_⟩
      have := parseGAResponseLoop_ret lastHeader.Name gaData.Rows [] pts (by rw [hrows]; exact h)
      rw [hrows] at this
      simpa using this

/-- C19, as stated: the response with one header and one row without cells parses
without error, and the record returned has the dimension and metric names `empty`, not
the sanitised join of the row's cells and not the sanitised header name `activeUsers`. -/
theorem parseGAResponse_empty_row_names :
    parseGAResponse ⟨[⟨[], [], "rt:activeUsers".toList⟩], [[]]⟩ =
      .ret [⟨0, "empty".toList, "empty".toList, none⟩] none ∧
    format (stringsJoin ([] : List Str).dropLast ['_']) = [] ∧
    format "rt:activeUsers".toList = "activeUsers".toList ∧
    "empty".toList ≠ format (stringsJoin ([] : List Str).dropLast ['_']) ∧
    "empty".toList ≠ format "rt:activeUsers".toList := by
  decide

/-- C19, amended: for every realtime response with at least one row and a non-empty first
row that parses without error, there is one record per row, the dimension name of the
i-th record is `format` of the cells of the i-th row except the last joined with `_` (the
empty string for a row of one cell), and the metric name of every record is `format` of
the name of the last column header. -/
theorem parseGAResponse_names (gaData : RealtimeData) (pts : List GABeatDataPoint)
    (hR : 1 ≤ gaData.Rows.length) (h0 : gaData.Rows.head? ≠ some [])
    (h : parseGAResponse gaData = .ret pts none) :
    ∃ lastHeader, gaData.ColumnHeaders.getLast? = some lastHeader ∧
      pts.length = gaData.Rows.length ∧
      ∀ i (hi : i < gaData.Rows.length), ∃ pt, pts[i]? = some pt ∧
        pt.DimensionName = format (stringsJoin (gaData.Rows[i]).dropLast ['_']) ∧
        ((gaData.Rows[i]).length = 1 → pt.DimensionName = []) ∧
        pt.MetricName = format lastHeader.Name := by
  obtain ⟨lastHeader, hl, rfl⟩ := parseGAResponse_ret gaData pts h0 (List.length_pos.mp hR) h
  refine ⟨lastHeader, hl, by simp, ?_⟩
  intro i hi
  refine ⟨realtimePoint lastHeader.Name gaData.Rows[i],
    by simp [List.getElem?_map, List.getElem?_eq_getElem hi], rfl, ?_, rfl⟩
  intro hone
  obtain ⟨cell, hcell⟩ := List.length_eq_one.mp hone
  rw [realtimePoint, hcell]
  show format (stringsJoin [] ['_']) = []
  decide

/-- C19, amended, at the response with headers `rt:country`, `rt:activeUsers` and the rows
`US, 10` and `FR, 3`. -/
theorem parseGAResponse_names_witness :
    ∃ lastHeader, exampleRealtime.ColumnHeaders.getLast? = some lastHeader ∧
      ([⟨10, "US".toList, "activeUsers".toList, none⟩,
        ⟨3, "FR".toList, "activeUsers".toList, none⟩] : List GABeatDataPoint).length =
        exampleRealtime.Rows.length ∧
      ∀ i (hi : i < exampleRealtime.Rows.length), ∃ pt,
        ([⟨10, "US".toList, "activeUsers".toList, none⟩,
          ⟨3, "FR".toList, "activeUsers".toList, none⟩] : List GABeatDataPoint)[i]? =
          some pt ∧
        pt.DimensionName = format (stringsJoin (exampleRealtime.Rows[i]).dropLast ['_']) ∧
        ((exampleRealtime.Rows[i]).length = 1 → pt.DimensionName = []) ∧
        pt.MetricName = format lastHeader.Name :=
  parseGAResponse_names exampleRealtime
    [⟨10, "US".toList, "activeUsers".toList, none⟩,
      ⟨3, "FR".toList, "activeUsers".toList, none⟩]
    (by decide) (by decide) (by decide)

/-! ## Lemmas on the events -/

theorem eventGet_eventPut_self (m : MapStr) (k : Str) (v : FieldValue) :
    eventGet (eventPut m k v) k = some v := by
  induction m with
  | nil => simp [eventPut, eventGet]
  | cons p rest ih =>
    obtain ⟨k', v'⟩ := p
    by_cases h : k' = k <;> simp [eventPut, eventGet, h, ih]

theorem eventGet_eventPut_ne (m : MapStr) (k : Str) (v : FieldValue) (k' : Str)
    (hk : k ≠ k') : eventGet (eventPut m k v) k' = eventGet m k' := by
  induction m with
  | nil => simp [eventPut, eventGet, hk]
  | cons p rest ih =>
    obtain ⟨k₀, v₀⟩ := p
    by_cases h : k₀ = k
    · subst h
      simp [eventPut, eventGet, hk]
    · simp only [eventPut, h, if_false, eventGet]
      by_cases h' : k₀ = k' <;> simp [h', ih]

theorem makeEventForChargeLoop_cons (key value : Str) (rest : List (Str × Str))
    (event : MapStr) :
    makeEventForChargeLoop ((key, value) :: rest) event =
      makeEventForChargeLoop rest (eventPut event (targetKey key) (targetValue key value)) := by
  rw [makeEventForChargeLoop]
  unfold targetKey targetValue
  by_cases hk : key = "date".toList
  · rw [if_pos hk, if_pos hk, if_pos hk]
    cases timeParse value <;> rfl
  · rw [if_neg hk, if_neg hk, if_neg hk]

theorem makeEventForChargeLoop_get_other (entries : List (Str × Str)) (f : Str) :
    ∀ event : MapStr, (∀ p ∈ entries, targetKey p.1 ≠ f) →
      eventGet (makeEventForChargeLoop entries event) f = eventGet event f := by
  induction entries with
  | nil => intro event _; rfl
  | cons p rest ih =>
    intro event h
    obtain ⟨key, value⟩ := p
    rw [makeEventForChargeLoop_cons, ih _ (fun q hq => h q (List.mem_cons_of_mem _ hq)),
      eventGet_eventPut_ne _ _ _ _ (h (key, value) (List.mem_cons_self _ _))]

theorem makeEventForChargeLoop_get_last (pre post : List (Str × Str)) (key value : Str)
    (h : ∀ p ∈ post, targetKey p.1 ≠ targetKey key) :
    ∀ event : MapStr,
      eventGet (makeEventForChargeLoop (pre ++ (key, value) :: post) event) (targetKey key) =
        some (targetValue key value) := by
  induction pre with
  | nil =>
    intro event
    rw [List.nil_append, makeEventForChargeLoop_cons,
      makeEventForChargeLoop_get_other post _ _ h, eventGet_eventPut_self]
  | cons p pre ih =>
    intro event
    obtain ⟨k, v⟩ := p
    rw [List.cons_append, makeEventForChargeLoop_cons]
    exact ih _

theorem not_isWord_hyphen : isWord '-' = false := by decide

theorem not_isWord_at : isWord '@' = false := by decide

theorem word_ne_logx (k : Str) (hk : ∀ c ∈ k, isWord c = true) :
    k ≠ "logx-timestamp".toList := by
  rintro rfl
  have := hk '-' (by decide)
  rw [not_isWord_hyphen] at this
  cases this

theorem word_ne_attimestamp (k : Str) (hk : ∀ c ∈ k, isWord c = true) :
    k ≠ "@timestamp".toList := by
  rintro rfl
  have := hk '@' (by decide)
  rw [not_isWord_at] at this
  cases this

theorem targetKey_ne_of_word (k k' : Str) (hk : ∀ c ∈ k, isWord c = true)
    (hk' : ∀ c ∈ k', isWord c = true) (hne : k ≠ k') : targetKey k ≠ targetKey k' := by
  unfold targetKey
  by_cases h1 : k = "date".toList <;> by_cases h2 : k' = "date".toList
  · exact absurd (h1.trans h2.symm) hne
  · simp only [h1, h2, if_true, if_false]
    exact fun h => word_ne_logx k' hk' h.symm
  · simp only [h1, h2, if_true, if_false]
    exact word_ne_logx k hk
  · simp only [h1, h2, if_false]
    exact hne

/-- In a map with distinct sanitised keys every entry decides the field it is written to,
whatever the order of the visit. -/
theorem makeEventForChargeLoop_get_entry (m : List (Str × Str)) (event : MapStr)
    (hnd : (m.map (fun p => p.1)).Nodup) (hw : ∀ p ∈ m, ∀ c ∈ p.1, isWord c = true)
    (key value : Str) (hmem : (key, value) ∈ m) :
    eventGet (makeEventForChargeLoop m event) (targetKey key) =
      some (targetValue key value) := by
  obtain ⟨pre, post, rfl⟩ := List.append_of_mem hmem
  apply makeEventForChargeLoop_get_last
  intro p hp
  have hpm : p ∈ pre ++ (key, value) :: post :=
    List.mem_append_right _ (List.mem_cons_of_mem _ hp)
  have hne : p.1 ≠ key := by
    rw [List.map_append, List.map_cons] at hnd
    have h2 := (List.nodup_append.mp hnd).2.1
    have h3 : key ∉ post.map (fun p => p.1) := (List.nodup_cons.mp h2).1
    intro heq
    exact h3 (heq ▸ List.mem_map_of_mem (fun p => p.1) hp)
  exact targetKey_ne_of_word p.1 key (hw p hpm) (hw _ hmem) hne

theorem targetKey_ne_date (k : Str) : targetKey k ≠ "date".toList := by
  unfold targetKey
  by_cases h : k = "date".toList
  · simp only [h, if_true]
    decide
  · simp only [h, if_false]
    exact h

theorem eventsFor_length (env : BeatEnv) (gaConfig : GoogleAnalyticsConfig)
    (GAData : List GABeatDataPoint) :
    ∀ n, (eventsFor env gaConfig n GAData).length = GAData.length := by
  induction GAData with
  | nil => intro n; rfl
  | cons data rest ih => intro n; simp [eventsFor, ih]

theorem eventsFor_getElem? (env : BeatEnv) (gaConfig : GoogleAnalyticsConfig)
    (GAData : List GABeatDataPoint) :
    ∀ n i, (eventsFor env gaConfig n GAData)[i]? =
      (GAData[i]?).map (fun data => makeEventForCharge gaConfig (env.now (n + i)) data) := by
  induction GAData with
  | nil => intro n i; simp [eventsFor]
  | cons data rest ih =>
    intro n i
    cases i with
    | zero => simp [eventsFor]
    | succ i =>
      simp only [eventsFor, List.getElem?_cons_succ]
      rw [ih (n + 1) i]
      congr 2
      funext data
      congr 2
      omega

theorem publishToElasticForCharge_state (env : BeatEnv) (gaConfig : GoogleAnalyticsConfig)
    (GAData : List GABeatDataPoint) :
    ∀ st : BeatState,
      (publishToElasticForCharge env gaConfig GAData st).handed =
        st.handed ++ eventsFor env gaConfig st.clock GAData ∧
      (publishToElasticForCharge env gaConfig GAData st).clock = st.clock + GAData.length := by
  induction GAData with
  | nil => intro st; simp [publishToElasticForCharge, eventsFor]
  | cons data rest ih =>
    intro st
    rw [publishToElasticForCharge]
    obtain ⟨h1, h2⟩ := ih
      { handed := st.handed ++ [makeEventForCharge gaConfig (env.now st.clock) data]
        errLog := if env.publishEvent st.handed
            (makeEventForCharge gaConfig (env.now st.clock) data) = true
          then st.errLog else st.errLog ++ [.publishFailed]
        clock := st.clock + 1 }
    refine ⟨?_, ?_⟩
    · rw [h1]
      simp [eventsFor]
    · rw [h2]
      simp only [List.length_cons]
      omega

theorem targetKey_ne_of_ne (k f : Str) (hf : f ≠ "logx-timestamp".toList) (h : k ≠ f) :
    targetKey k ≠ f := by
  unfold targetKey
  by_cases hk : k = "date".toList
  · rw [if_pos hk]
    exact fun he => hf he.symm
  · rw [if_neg hk]
    exact h

theorem makeEventForCharge_get_date (gaConfig : GoogleAnalyticsConfig) (now : Nat)
    (GAData : GABeatDataPoint) :
    eventGet (makeEventForCharge gaConfig now GAData) "date".toList = none := by
  unfold makeEventForCharge
  rw [makeEventForChargeLoop_get_other _ _ _ (fun p _ => targetKey_ne_date p.1)]
  rfl

theorem mapPut_mem (m : GoMap) (k v : Str) (p : Str × Str) (hp : p ∈ mapPut m k v) :
    p = (k, v) ∨ p ∈ m := by
  induction m with
  | nil =>
    simp only [mapPut, List.mem_singleton] at hp
    exact Or.inl hp
  | cons q rest ih =>
    obtain ⟨k', v'⟩ := q
    by_cases h : k' = k
    · simp only [mapPut, h, if_true, List.mem_cons] at hp
      rcases hp with hp | hp
      · exact Or.inl hp
      · exact Or.inr (List.mem_cons_of_mem _ hp)
    · simp only [mapPut, h, if_false, List.mem_cons] at hp
      rcases hp with hp | hp
      · exact Or.inr (hp ▸ List.mem_cons_self _ _)
      · rcases ih hp with h1 | h1
        · exact Or.inl h1
        · exact Or.inr (List.mem_cons_of_mem _ h1)

theorem mapPut_nodup (m : GoMap) (k v : Str) (hnd : (m.map (fun p => p.1)).Nodup) :
    ((mapPut m k v).map (fun p => p.1)).Nodup := by
  induction m with
  | nil => simp [mapPut]
  | cons q rest ih =>
    obtain ⟨k', v'⟩ := q
    rw [List.map_cons, List.nodup_cons] at hnd
    by_cases h : k' = k
    · subst h
      simp only [mapPut, if_true, List.map_cons, List.nodup_cons]
      exact hnd
    · simp only [mapPut, h, if_false, List.map_cons, List.nodup_cons]
      refine ⟨?_, ih hnd.2⟩
      intro hmem
      obtain ⟨p, hp, hpk⟩ := List.mem_map.mp hmem
      rcases mapPut_mem rest k v p hp with h1 | h1
      · rw [h1] at hpk
        exact h hpk.symm
      · exact hnd.1 (hpk ▸ List.mem_map_of_mem (fun p => p.1) h1)

theorem fillData_shape (row : List Str) (hs : List ColumnHeader) :
    ∀ (i : Nat) (data m : GoMap), fillData row i hs data = some m →
      (data.map (fun p => p.1)).Nodup → (∀ p ∈ data, ∀ c ∈ p.1, isWord c = true) →
      (m.map (fun p => p.1)).Nodup ∧ ∀ p ∈ m, ∀ c ∈ p.1, isWord c = true := by
  induction hs with
  | nil =>
    intro i data m hm hnd hw
    simp only [fillData, Option.some.injEq] at hm
    subst hm
    exact ⟨hnd, hw⟩
  | cons h rest ih =>
    intro i data m hm hnd hw
    rw [fillData, goIndex_natCast] at hm
    cases hc : row[i]? with
    | none => rw [hc] at hm; cases hm
    | some cell =>
      rw [hc] at hm
      refine ih (i + 1) _ m hm (mapPut_nodup _ _ _ hnd) ?_
      intro p hp c hcp
      rcases mapPut_mem _ _ _ p hp with h1 | h1
      · rw [h1] at hcp
        exact format_isWord _ c hcp
      · exact hw p h1 c hcp

theorem parseGAResponseForChargeLoop_shape (hs : List ColumnHeader)
    (rows : List (List Str)) :
    ∀ (acc pts : List GABeatDataPoint) (err : Option GAError),
      parseGAResponseForChargeLoop hs rows acc = .ret pts err →
      (∀ pt ∈ acc, RangedShape pt) → ∀ pt ∈ pts, RangedShape pt := by
  induction rows with
  | nil =>
    intro acc pts err h hacc
    simp only [parseGAResponseForChargeLoop, Outcome.ret.injEq] at h
    rw [← h.1]
    exact hacc
  | cons row rows ih =>
    intro acc pts err h hacc
    rw [parseGAResponseForChargeLoop] at h
    cases hf : fillData row 0 hs [] with
    | none => rw [hf] at h; cases h
    | some data =>
      rw [hf] at h
      refine ih _ pts err h ?_
      intro pt hpt
      rcases List.mem_append.mp hpt with h1 | h1
      · exact hacc pt h1
      · rw [List.mem_singleton] at h1
        subst h1
        obtain ⟨hnd, hw⟩ := fillData_shape row hs 0 [] data hf (by simp) (by simp)
        exact ⟨data, rfl, hnd, hw⟩

/-- Every record the ranged parser returns for a response with a non-empty first row has
the ranged shape. -/
theorem parseGAResponseForCharge_shape (gaData : GaData) (dimensionCount metricCount : Nat)
    (pts : List GABeatDataPoint) (err : Option GAError)
    (hR : gaData.Rows ≠ []) (h0 : gaData.Rows.head? ≠ some [])
    (h : parseGAResponseForCharge gaData dimensionCount metricCount = .ret pts err) :
    ∀ pt ∈ pts, RangedShape pt := by
  unfold parseGAResponseForCharge at h
  cases hrows : gaData.Rows with
  | nil => exact absurd hrows hR
  | cons row0 rest =>
    rw [hrows] at h0
    have hne : row0 ≠ [] := by simpa using h0
    have hlen : ¬ row0.length < 1 := by
      have := List.length_pos.mpr hne
      omega
    simp only [hrows, hlen, if_false] at h
    exact parseGAResponseForChargeLoop_shape _ _ [] pts err h (by simp)

/-! ## The event publisher -/

/-- C12: for every configuration, record list and sink behaviour,
`publishToElasticForCharge` hands the sink exactly `len(records)` new events after those
handed before, the i-th of them built by `makeEventForCharge` from the i-th record (at the
i-th clock reading of the call), in record order; the answers of the sink play no part. -/
theorem publishToElasticForCharge_hands_all (env : BeatEnv)
    (gaConfig : GoogleAnalyticsConfig) (GAData : List GABeatDataPoint) (st : BeatState) :
    (publishToElasticForCharge env gaConfig GAData st).handed.length =
      st.handed.length + GAData.length ∧
    (publishToElasticForCharge env gaConfig GAData st).handed =
      st.handed ++ eventsFor env gaConfig st.clock GAData ∧
    ∀ i, (publishToElasticForCharge env gaConfig GAData st).handed[st.handed.length + i]? =
      (GAData[i]?).map
        (fun data => makeEventForCharge gaConfig (env.now (st.clock + i)) data) := by
  have h := (publishToElasticForCharge_state env gaConfig GAData st).1
  refine ⟨?_, h, ?_⟩
  · rw [h, List.length_append, eventsFor_length]
  · intro i
    rw [h, List.getElem?_append_right (Nat.le_add_right _ _), Nat.add_sub_cancel_left,
      eventsFor_getElem?]

/-- C13: a collection run over the example realtime response returns the records
`{10, US, activeUsers}` and `{3, FR, activeUsers}`, and the two events `beatOnce` publishes
for them hold the timestamp, the type and the tags only: no field is named from the
dimension and metric names and none holds the value 10 or 3.  The builder `makeEvent` of
the path `publishToElastic`, which `beatOnce` no longer calls, stores 10 under
`US_activeUsers`. -/
theorem beatOnce_drops_realtime_value :
    beatOnce exampleBeatEnv { exampleConfig with GoogleAnalyticsType := "realtime".toList }
        (fun gaConfig =>
          (getGAReportData ⟨fun _ => none, fun _ _ _ _ _ => .error []⟩ gaConfig
            (fun _ _ _ => .ok exampleRealtime)).2)
        ⟨[], [], 0⟩ =
      some ⟨[[("@timestamp".toList, .commonTime 0), ("type".toList, .str "ga".toList),
            ("tags".toList, .strs ["web".toList])],
          [("@timestamp".toList, .commonTime 1), ("type".toList, .str "ga".toList),
            ("tags".toList, .strs ["web".toList])]],
        [], 2⟩ ∧
    eventGet (makeEventForCharge exampleConfig 0
      ⟨10, "US".toList, "activeUsers".toList, none⟩) "US_activeUsers".toList = none ∧
    (∀ p ∈ makeEventForCharge exampleConfig 0 ⟨10, "US".toList, "activeUsers".toList, none⟩,
      p.2 ≠ .int 10) ∧
    eventGet (makeEvent "ga".toList 0 [⟨10, "US".toList, "activeUsers".toList, none⟩])
      "US_activeUsers".toList = some (.int 10) := by
  decide

/-- C14, as stated: the event built from the record `date ↦ 20230115`, `pageviews ↦ 42`
has no field `date`; the parsed date stands under `logx-timestamp` in place of it. -/
theorem makeEventForCharge_example_no_date :
    makeEventForCharge exampleConfig 0 exampleRanged =
      [("@timestamp".toList, .commonTime 0), ("type".toList, .str "ga".toList),
        ("tags".toList, .strs ["web".toList]),
        ("logx-timestamp".toList, .time ⟨2023, 1, 15⟩),
        ("pageviews".toList, .str "42".toList)] ∧
    eventGet (makeEventForCharge exampleConfig 0 exampleRanged) "date".toList = none ∧
    eventGet (makeEventForCharge exampleConfig 0 exampleRanged) "date".toList ≠
      some (.str "20230115".toList) := by
  decide

/-- C14, amended: for every ranged-shape record and every entry `(k, v)` of its map with
`k` other than `date`, the event returned by `makeEventForCharge` has field `k` with value
`v`.  The entry with key `date` is not copied: the event has no field `date`, and the value
of that entry, parsed or raw, stands under `logx-timestamp` instead. -/
theorem makeEventForCharge_entries (gaConfig : GoogleAnalyticsConfig) (now : Nat)
    (GAData : GABeatDataPoint) (h : RangedShape GAData) :
    (∀ m k v, GAData.Data = some m → (k, v) ∈ m → k ≠ "date".toList →
      eventGet (makeEventForCharge gaConfig now GAData) k = some (.str v)) ∧
    eventGet (makeEventForCharge gaConfig now GAData) "date".toList = none ∧
    (∀ m v, GAData.Data = some m → ("date".toList, v) ∈ m →
      eventGet (makeEventForCharge gaConfig now GAData) "logx-timestamp".toList =
        some (targetValue "date".toList v)) := by
  obtain ⟨m, hm, hnd, hw⟩ := h
  refine ⟨?_, makeEventForCharge_get_date gaConfig now GAData, ?_⟩
  · intro m' k v hm' hmem hk
    have hmm : m' = m := Option.some.inj (hm'.symm.trans hm)
    subst hmm
    have := makeEventForChargeLoop_get_entry m'
      [("@timestamp".toList, .commonTime now), ("type".toList, .str gaConfig.DocumentType),
        ("tags".toList, .strs gaConfig.Tags)] hnd hw k v hmem
    unfold targetKey targetValue at this
    rw [if_neg hk, if_neg hk] at this
    unfold makeEventForCharge
    rw [hm']
    exact this
  · intro m' v hm' hmem
    have hmm : m' = m := Option.some.inj (hm'.symm.trans hm)
    subst hmm
    have := makeEventForChargeLoop_get_entry m'
      [("@timestamp".toList, .commonTime now), ("type".toList, .str gaConfig.DocumentType),
        ("tags".toList, .strs gaConfig.Tags)] hnd hw "date".toList v hmem
    unfold makeEventForCharge
    rw [hm']
    exact this

/-- C14, amended, at the record `date ↦ 20230115`, `pageviews ↦ 42`. -/
theorem makeEventForCharge_entries_witness :
    eventGet (makeEventForCharge exampleConfig 0 exampleRanged) "pageviews".toList =
      some (.str "42".toList) ∧
    eventGet (makeEventForCharge exampleConfig 0 exampleRanged) "logx-timestamp".toList =
      some (targetValue "date".toList "20230115".toList) :=
  ⟨(makeEventForCharge_entries exampleConfig 0 exampleRanged
      ⟨_, rfl, by decide, by decide⟩).1 _ "pageviews".toList "42".toList rfl
      (by decide) (by decide),
    (makeEventForCharge_entries exampleConfig 0 exampleRanged
      ⟨_, rfl, by decide, by decide⟩).2.2 _ "20230115".toList rfl (by decide)⟩

/-- C15: for every ranged-shape record `makeEventForCharge` returns an event (it is a total
function) whose field `@timestamp` is the clock reading, and whose field `logx-timestamp`
is the parsed date when the map has a `date` entry that `time.Parse` accepts for the layout
`20060102`, the unchanged raw string when the map has a `date` entry that does not parse,
and absent when the map has no `date` entry. -/
theorem makeEventForCharge_timestamps (gaConfig : GoogleAnalyticsConfig) (now : Nat)
    (GAData : GABeatDataPoint) (h : RangedShape GAData) :
    eventGet (makeEventForCharge gaConfig now GAData) "@timestamp".toList =
      some (.commonTime now) ∧
    (∀ m v t, GAData.Data = some m → ("date".toList, v) ∈ m → timeParse v = some t →
      eventGet (makeEventForCharge gaConfig now GAData) "logx-timestamp".toList =
        some (.time t)) ∧
    (∀ m v, GAData.Data = some m → ("date".toList, v) ∈ m → timeParse v = none →
      eventGet (makeEventForCharge gaConfig now GAData) "logx-timestamp".toList =
        some (.str v)) ∧
    (∀ m, GAData.Data = some m → (∀ v, ("date".toList, v) ∉ m) →
      eventGet (makeEventForCharge gaConfig now GAData) "logx-timestamp".toList = none) := by
  obtain ⟨m, hm, hnd, hw⟩ := h
  have hentry : ∀ v, ("date".toList, v) ∈ m →
      eventGet (makeEventForCharge gaConfig now GAData) "logx-timestamp".toList =
        some (targetValue "date".toList v) := by
    intro v hmem
    have := makeEventForChargeLoop_get_entry m
      [("@timestamp".toList, .commonTime now), ("type".toList, .str gaConfig.DocumentType),
        ("tags".toList, .strs gaConfig.Tags)] hnd hw "date".toList v hmem
    unfold makeEventForCharge
    rw [hm]
    exact this
  refine ⟨?_, ?_, ?_, ?_⟩
  · unfold makeEventForCharge
    rw [hm, Option.getD_some, makeEventForChargeLoop_get_other]
    · rfl
    · intro p hp
      exact targetKey_ne_of_ne p.1 _ (by decide) (word_ne_attimestamp p.1 (hw p hp))
  · intro m' v t hm' hmem ht
    have hmm : m' = m := Option.some.inj (hm'.symm.trans hm)
    subst hmm
    rw [hentry v hmem]
    unfold targetValue
    rw [if_pos rfl, ht]
  · intro m' v hm' hmem ht
    have hmm : m' = m := Option.some.inj (hm'.symm.trans hm)
    subst hmm
    rw [hentry v hmem]
    unfold targetValue
    rw [if_pos rfl, ht]
  · intro m' hm' hno
    have hmm : m' = m := Option.some.inj (hm'.symm.trans hm)
    subst hmm
    unfold makeEventForCharge
    rw [hm', Option.getD_some, makeEventForChargeLoop_get_other]
    · rfl
    · intro p hp
      have hpd : p.1 ≠ "date".toList := by
        intro hd
        exact hno p.2 (by rw [← hd]; exact hp)
      unfold targetKey
      rw [if_neg hpd]
      exact word_ne_logx p.1 (hw p hp)

/-- C15, at the record `date ↦ 20230115`, `pageviews ↦ 42`: the field `logx-timestamp` is
the fifteenth of January 2023. -/
theorem makeEventForCharge_timestamps_witness :
    eventGet (makeEventForCharge exampleConfig 5 exampleRanged) "@timestamp".toList =
      some (.commonTime 5) ∧
    eventGet (makeEventForCharge exampleConfig 5 exampleRanged) "logx-timestamp".toList =
      some (.time ⟨2023, 1, 15⟩) :=
  ⟨(makeEventForCharge_timestamps exampleConfig 5 exampleRanged
      ⟨_, rfl, by decide, by decide⟩).1,
    (makeEventForCharge_timestamps exampleConfig 5 exampleRanged
      ⟨_, rfl, by decide, by decide⟩).2.1 _ "20230115".toList ⟨2023, 1, 15⟩ rfl
      (by decide) (by decide)⟩

/-- C16, as stated: a record whose map holds the key `type` gives an event whose field
`type` is the value of that entry and not the document type of the configuration, and
likewise for the key `tags`. -/
theorem makeEventForCharge_type_overwritten :
    eventGet (makeEventForCharge exampleConfig 0
      ⟨0, [], [], some [("type".toList, "pageview".toList)]⟩) "type".toList =
      some (.str "pageview".toList) ∧
    eventGet (makeEventForCharge exampleConfig 0
      ⟨0, [], [], some [("type".toList, "pageview".toList)]⟩) "type".toList ≠
      some (.str exampleConfig.DocumentType) ∧
    eventGet (makeEventForCharge exampleConfig 0
      ⟨0, [], [], some [("tags".toList, "x".toList)]⟩) "tags".toList ≠
      some (.strs exampleConfig.Tags) := by
  decide

/-- C16, amended: for every configuration and every record whose map holds no key named
`type`, the event returned by `makeEventForCharge` has field `type` equal to the document
type of the configuration; and for every record whose map holds no key named `tags`, it
has field `tags` equal to the tag list of the configuration. -/
theorem makeEventForCharge_type_tags (gaConfig : GoogleAnalyticsConfig) (now : Nat)
    (GAData : GABeatDataPoint) :
    ((∀ p ∈ GAData.Data.getD [], p.1 ≠ "type".toList) →
      eventGet (makeEventForCharge gaConfig now GAData) "type".toList =
        some (.str gaConfig.DocumentType)) ∧
    ((∀ p ∈ GAData.Data.getD [], p.1 ≠ "tags".toList) →
      eventGet (makeEventForCharge gaConfig now GAData) "tags".toList =
        some (.strs gaConfig.Tags)) := by
  constructor
  · intro h
    unfold makeEventForCharge
    rw [makeEventForChargeLoop_get_other]
    · rfl
    · intro p hp
      exact targetKey_ne_of_ne p.1 _ (by decide) (h p hp)
  · intro h
    unfold makeEventForCharge
    rw [makeEventForChargeLoop_get_other]
    · rfl
    · intro p hp
      exact targetKey_ne_of_ne p.1 _ (by decide) (h p hp)

/-- C16, amended, at the record `date ↦ 20230115`, `pageviews ↦ 42`. -/
theorem makeEventForCharge_type_tags_witness :
    eventGet (makeEventForCharge exampleConfig 0 exampleRanged) "type".toList =
      some (.str "ga".toList) ∧
    eventGet (makeEventForCharge exampleConfig 0 exampleRanged) "tags".toList =
      some (.strs ["web".toList]) :=
  ⟨(makeEventForCharge_type_tags exampleConfig 0 exampleRanged).1 (by decide),
    (makeEventForCharge_type_tags exampleConfig 0 exampleRanged).2 (by decide)⟩

/-! ## The scheduler -/

theorem runFunctionallyRegister_eq (env : BeatEnv) (configs : List GoogleAnalyticsConfig) :
    ∀ entries : List CronEntry,
      runFunctionallyRegister env configs entries =
        entries ++ (configs.filter (fun c => env.cronParses c.Schedule)).map
          (fun c => ⟨c.Schedule, c⟩) := by
  induction configs with
  | nil => intro entries; simp [runFunctionallyRegister]
  | cons c rest ih =>
    intro entries
    rw [runFunctionallyRegister, ih]
    by_cases hc : env.cronParses c.Schedule = true
    · simp [cronAddFunc, hc, List.filter_cons]
    · simp [cronAddFunc, hc, List.filter_cons]

/-- C18: `Stop` closes the client and the channel `bt.done` and leaves the scheduler
running.  After `Run`, `Stop` and the return of `Run`, a fire of the registered entry still
starts `beatOnce`: one job is begun after the stop signal.  And when `Stop` is called while
a job is under way, the client is closed with that job still in flight. -/
theorem stop_leaves_scheduler_running :
    ((Gabeat.new [exampleConfig]).steps exampleBeatEnv
      [.run, .stop, .runReturns, .fire 0]).jobsAfterStop = 1 ∧
    ((Gabeat.new [exampleConfig]).steps exampleBeatEnv
      [.run, .stop, .runReturns, .fire 0]).inFlight = [exampleConfig] ∧
    ((Gabeat.new [exampleConfig]).steps exampleBeatEnv
      [.run, .stop, .runReturns]).cronRunning = true ∧
    ((Gabeat.new [exampleConfig]).steps exampleBeatEnv
      [.run, .fire 0, .stop]).clientClosed = true ∧
    ((Gabeat.new [exampleConfig]).steps exampleBeatEnv
      [.run, .fire 0, .stop]).inFlight = [exampleConfig] ∧
    ((Gabeat.new [exampleConfig]).steps exampleBeatEnv
      [.run, .fire 0, .stop]).closedInFlight = 1 := by
  decide

/-- C20, as stated: a configured source whose schedule expression the cron library does
not accept, here the empty one, is left without a trigger; of two sources, the first with
the empty schedule, only the second gets one. -/
theorem runFunctionally_source_without_trigger :
    exampleBeatEnv.cronParses [] = false ∧
    runFunctionallyRegister exampleBeatEnv [{ exampleConfig with Schedule := [] }] [] = [] ∧
    runFunctionallyRegister exampleBeatEnv
      [{ exampleConfig with Schedule := [] }, exampleConfig] [] =
      [⟨"@hourly".toList, exampleConfig⟩] := by
  decide

/-- C20, amended: for every list of configured sources whose schedule expressions the cron
library accepts, `runFunctionally` registers exactly one trigger per source, the i-th one
with the schedule expression of the i-th source, and a fire of the i-th trigger runs
`beatOnce` with the configuration of the i-th source. -/
theorem runFunctionally_triggers (env : BeatEnv) (configs : List GoogleAnalyticsConfig)
    (hall : ∀ c ∈ configs, env.cronParses c.Schedule = true) :
    (runFunctionallyRegister env configs []).length = configs.length ∧
    (∀ i : Nat, (runFunctionallyRegister env configs [])[i]? =
      (configs[i]?).map (fun c => (⟨c.Schedule, c⟩ : CronEntry))) ∧
    ∀ (dataFunc : beatDataRetriever) (st : BeatState) (i : Nat) (hi : i < configs.length),
      cronFire env (runFunctionallyRegister env configs []) dataFunc i st =
        beatOnce env configs[i] dataFunc st := by
  have hfilter : configs.filter (fun c => env.cronParses c.Schedule) = configs :=
    List.filter_eq_self.mpr hall
  have heq : runFunctionallyRegister env configs [] =
      configs.map (fun c => ⟨c.Schedule, c⟩) := by
    rw [runFunctionallyRegister_eq, hfilter, List.nil_append]
  refine ⟨by rw [heq, List.length_map], ?_, ?_⟩
  · intro i
    rw [heq, List.getElem?_map]
  · intro dataFunc st i hi
    unfold cronFire
    rw [heq, List.getElem?_map, List.getElem?_eq_getElem hi]
    rfl

/-- C20, amended, at two sources fired every hour and every day. -/
theorem runFunctionally_triggers_witness :
    (runFunctionallyRegister exampleBeatEnv
      [exampleConfig, { exampleConfig with Schedule := "@daily".toList }] []).length = 2 ∧
    (runFunctionallyRegister exampleBeatEnv
      [exampleConfig, { exampleConfig with Schedule := "@daily".toList }] [])[1]? =
      some ⟨"@daily".toList, { exampleConfig with Schedule := "@daily".toList }⟩ :=
  ⟨(runFunctionally_triggers exampleBeatEnv
      [exampleConfig, { exampleConfig with Schedule := "@daily".toList }]
      (by decide)).1,
    (runFunctionally_triggers exampleBeatEnv
      [exampleConfig, { exampleConfig with Schedule := "@daily".toList }]
      (by decide)).2.1 1⟩

end GABeat
